import Mathlib

/-!
# WechatExporter: `WechatParser.h` and the view `View.h`

A shallow embedding of the filter classes of
`WechatExporter/core/WechatParser.h` (`FilterBase`, `RegexFilterBase`,
`MessageDbFilter`, `UserFolderFilter`, `SessionCellDataFilter`,
`MMSettingInMMappedKVFilter`), of `TemplateValues` and the option setters of
`SessionParser`, and of the handlers of the view `CView` in `vcproject/View.h`,
together with the parts of the C++ standard library they call (`std::string`
comparison, `find`, `substr`, `std::map`, `std::set`, `std::regex_search` on the
regular expressions that occur in the header).

A `std::string` is a list of `char`s; every `char` is modelled by a `Char`
and compared by its code, as `std::char_traits<char>` compares unsigned bytes.
A member function that can leave defined behaviour (an iterator or position
beyond the end of the string) returns an `Option`, `none` standing for that.
-/

namespace WechatParser

/-! ## Strings -/

/-- A value of `std::string`. -/
abbrev Str := List Char

/-- The function `std::string::compare`: the first differing character decides,
and a proper prefix is smaller. -/
def strCompare : Str → Str → Ordering
  | [], [] => .eq
  | [], _ :: _ => .lt
  | _ :: _, [] => .gt
  | a :: as, b :: bs =>
    if a < b then .lt else if b < a then .gt else strCompare as bs

/-- The comparison `a < b` of two `std::string`s. -/
def strLt (a b : Str) : Bool := strCompare a b == .lt

/-- The comparison `a > b` of two `std::string`s. -/
def strGt (a b : Str) : Bool := strCompare a b == .gt

/-- Search of `pat` in the text `rest` that starts at position `i` of the whole
string; the position of the first occurrence. -/
def findAux (pat : Str) : Nat → Str → Option Nat
  | i, [] => if pat.isPrefixOf [] then some i else none
  | i, c :: cs => if pat.isPrefixOf (c :: cs) then some i else findAux pat (i + 1) cs

/-- The function `std::string::find(str, pos)`: the position of the first
occurrence of `pat` that begins at `pos` or later, `none` for `npos`. -/
def find (s pat : Str) (pos : Nat) : Option Nat :=
  if pos ≤ s.length then findAux pat pos (s.drop pos) else none

/-- Search of the character `c` in the text `rest` that starts at position `i`. -/
def findCharAux (c : Char) : Nat → Str → Option Nat
  | _, [] => none
  | i, x :: xs => if x = c then some i else findCharAux c (i + 1) xs

/-- The function `std::string::find(ch, pos)`: the position of the first `c` at
`pos` or later, `none` for `npos`. -/
def findChar (s : Str) (c : Char) (pos : Nat) : Option Nat :=
  if pos ≤ s.length then findCharAux c pos (s.drop pos) else none

/-- The function `std::string::substr(pos)`: the characters from `pos` on;
`none` when `pos` exceeds the size (`std::out_of_range`). -/
def substr (s : Str) (pos : Nat) : Option Str :=
  if pos ≤ s.length then some (s.drop pos) else none

/-- The algorithm `std::replace(begin, end, old, new)` on a string. -/
def replace (s : Str) (old new : Char) : Str :=
  s.map fun c => if c = old then new else c

/-- Modelled from the spec: `startsWith` of `Utils.h`, which is not part of the
sources at hand; the spec reads it as "virtual path starts with the prefix". -/
def startsWith (str pre : Str) : Bool := pre.isPrefixOf str

/-- Modelled from the spec: `endsWith` of `Utils.h`, which is not part of the
sources at hand; the spec reads it as a fixed suffix of the path. -/
def endsWith (str suffix : Str) : Bool := suffix.isSuffixOf str

/-! ## Regular expressions

The header uses `std::regex` with the ECMAScript grammar and calls
`std::regex_search` on an iterator range.  The model covers the constructs that
occur in its patterns. -/

/-- One element of a regular expression, in the order of the pattern text. -/
inductive RegexNode where
  /-- The assertion `^`. -/
  | bol
  /-- The assertion `$`. -/
  | eol
  /-- A character that matches itself, also written escaped (`\.`). -/
  | chr (c : Char)
  /-- The greedy bounded repetition `[lo-hi]{min,max}` of a bracket range. -/
  | range (lo hi : Char) (min max : Nat)
  /-- The `(` of capture group 1. -/
  | groupOpen
  /-- The `)` of capture group 1. -/
  | groupClose
  /-- The content of a default-constructed `std::regex`, which matches no
  character sequence. -/
  | nothing
  deriving DecidableEq, Repr

/-- A compiled `std::regex`. -/
abbrev Regex := List RegexNode

/-- The state of one match attempt: the offset of the current position from
the first iterator of the searched range, the text still ahead, where group 1
was opened, and the span of group 1 once it is closed. -/
structure MatchState where
  pos : Nat
  rest : Str
  open1 : Option Nat
  group1 : Option (Nat × Nat)
  deriving DecidableEq, Repr

/-- Greedy repetition of the range `[lo-hi]` between `min` and `max` times,
followed by the continuation `k`; a longer repetition is tried first. -/
def matchRange (lo hi : Char) (k : MatchState → Option MatchState) :
    Nat → Nat → MatchState → Option MatchState
  | min, 0, st => if min = 0 then k st else none
  | min, max + 1, st =>
    match st.rest with
    | [] => if min = 0 then k st else none
    | x :: xs =>
      if lo ≤ x ∧ x ≤ hi then
        match matchRange lo hi k (min - 1) max { st with pos := st.pos + 1, rest := xs } with
        | some r => some r
        | none => if min = 0 then k st else none
      else if min = 0 then k st else none

/-- A match attempt of the expression at the current position, by
backtracking; the final state when the whole expression matched. -/
def matchNodes : Regex → MatchState → Option MatchState
  | [], st => some st
  | .bol :: ns, st => if st.pos = 0 then matchNodes ns st else none
  | .eol :: ns, st =>
    match st.rest with
    | [] => matchNodes ns st
    | _ :: _ => none
  | .chr c :: ns, st =>
    match st.rest with
    | [] => none
    | x :: xs =>
      if x = c then matchNodes ns { st with pos := st.pos + 1, rest := xs } else none
  | .range lo hi min max :: ns, st =>
    matchRange lo hi (fun st1 => matchNodes ns st1) min max st
  | .groupOpen :: ns, st => matchNodes ns { st with open1 := some st.pos }
  | .groupClose :: ns, st =>
    matchNodes ns { st with group1 := st.open1.map fun a => (a, st.pos) }
  | .nothing :: _, _ => none

/-- The attempts of `std::regex_search` at the offset `pos` and every later
one, in this order; the first that succeeds is the result. -/
def regexSearchFrom (re : Regex) : Nat → Str → Option MatchState
  | pos, [] => matchNodes re ⟨pos, [], none, none⟩
  | pos, c :: cs =>
    match matchNodes re ⟨pos, c :: cs, none, none⟩ with
    | some r => some r
    | none => regexSearchFrom re (pos + 1) cs

/-- The call `std::regex_search(first, last, sm, re)` on the text between the
two iterators: `none` when it returns false, else the span of `sm[1]` with
offsets from `first` (`none` inside when group 1 took no part). -/
def regex_search (text : Str) (re : Regex) : Option (Option (Nat × Nat)) :=
  (regexSearchFrom re 0 text).map fun r => r.group1

/-- The conversion of the sub-match `sm[1]` to a `std::string`. -/
def subMatch1 (text : Str) : Option (Nat × Nat) → Str
  | none => []
  | some (a, b) => (text.drop a).take (b - a)

/-! ## The backup file entry -/

/-- Modelled from the spec: `ITunesFile` of `ITunesParser.h`, which is not part
of the sources at hand; the spec's BackupFileEntry, a virtual relative path
and an opaque storage identifier. -/
structure ITunesFile where
  relativePath : Str
  fileId : Str
  deriving DecidableEq, Repr

/-! ## `FilterBase` -/

/-- The class template `FilterBase<T>`; the parameter `T` only tags the
overloads of `operator()`. -/
structure FilterBase where
  m_path : Str
  m_pattern : Str
  deriving DecidableEq, Repr

/-- The overload `operator()(const ITunesFile*, const T&)`, "less". -/
def FilterBase.less (f : FilterBase) (s1 : ITunesFile) : Bool :=
  !startsWith s1.relativePath f.m_path && strLt s1.relativePath f.m_path

/-- The overload `operator()(const T&, const ITunesFile*)`, "greater". -/
def FilterBase.greater (f : FilterBase) (s1 : ITunesFile) : Bool :=
  !startsWith s1.relativePath f.m_path && strGt s1.relativePath f.m_path

/-- The member `FilterBase::operator==`. -/
def FilterBase.opEq (f : FilterBase) (s : ITunesFile) : Bool :=
  startsWith s.relativePath f.m_path &&
    (find s.relativePath f.m_pattern f.m_path.length).isSome

/-- The member `FilterBase::parse`. -/
def FilterBase.parse (f : FilterBase) (s : ITunesFile) : Option Str :=
  if f.opEq s then substr s.relativePath f.m_path.length else some []

/-! ## `RegexFilterBase` -/

/-- The class template `RegexFilterBase<T>`. -/
structure RegexFilterBase where
  m_path : Str
  m_pattern : Regex
  deriving DecidableEq, Repr

/-- The overload `operator()(const ITunesFile*, const T&)`, "less". -/
def RegexFilterBase.less (f : RegexFilterBase) (s1 : ITunesFile) : Bool :=
  !startsWith s1.relativePath f.m_path && strLt s1.relativePath f.m_path

/-- The overload `operator()(const T&, const ITunesFile*)`, "greater". -/
def RegexFilterBase.greater (f : RegexFilterBase) (s1 : ITunesFile) : Bool :=
  !startsWith s1.relativePath f.m_path && strGt s1.relativePath f.m_path

/-- The member `RegexFilterBase::operator==`; the search is only evaluated
when `startsWith` holds, so its first iterator lies inside the path. -/
def RegexFilterBase.opEq (f : RegexFilterBase) (s : ITunesFile) : Bool :=
  startsWith s.relativePath f.m_path &&
    (regex_search (s.relativePath.drop f.m_path.length) f.m_pattern).isSome

/-- The member `RegexFilterBase::parse`.  It searches from the iterator
`begin() + m_path.size()` without a test of the prefix; `none` when that
iterator lies beyond `end()`. -/
def RegexFilterBase.parse (f : RegexFilterBase) (s : ITunesFile) : Option Str :=
  if f.m_path.length ≤ s.relativePath.length then
    match regex_search (s.relativePath.drop f.m_path.length) f.m_pattern with
    | some sm1 => some (subMatch1 (s.relativePath.drop f.m_path.length) sm1)
    | none => some []
  else none

/-! ## The concrete filters -/

/-- The characters of a literal piece of a pattern. -/
def lits (s : Str) : Regex := s.map RegexNode.chr

/-- The regular expression `^(message_[0-9]{1,4}\.sqlite)$`. -/
def messageDbPattern : Regex :=
  [.bol, .groupOpen] ++ lits "message_".toList ++ [.range '0' '9' 1 4] ++
    lits ".sqlite".toList ++ [.groupClose, .eol]

/-- The constructor `MessageDbFilter::MessageDbFilter(basePath)`. -/
def MessageDbFilter (basePath : Str) : RegexFilterBase :=
  let vpath := replace basePath '\\' '/'
  let vpath := if !endsWith vpath "/".toList then vpath ++ "/".toList else vpath
  let vpath := vpath ++ "DB/".toList
  { m_path := vpath, m_pattern := messageDbPattern }

/-- The default constructor `std::regex()`: an expression that matches no
character sequence. -/
def defaultRegex : Regex := [.nothing]

/-- The constructor `UserFolderFilter::UserFolderFilter()`; the assignment to
`m_pattern` is commented out, so the pattern stays the default-constructed
`std::regex`. -/
def UserFolderFilter : RegexFilterBase :=
  { m_path := "Documents/".toList, m_pattern := defaultRegex }

/-- The member `UserFolderFilter::operator==`, which hides the one of the
base class. -/
def UserFolderFilter.opEq (f : RegexFilterBase) (s : ITunesFile) : Bool :=
  if s.relativePath.length ≠ f.m_path.length + 32 || !startsWith s.relativePath f.m_path then
    false
  else if (findChar s.relativePath '/' f.m_path.length).isSome then
    false
  else
    true

/-- The member `UserFolderFilter::parse`, which hides the one of the base
class. -/
def UserFolderFilter.parse (f : RegexFilterBase) (s : ITunesFile) : Option Str :=
  if s.relativePath.length > 32 then substr s.relativePath f.m_path.length else some []

/-- The constructor `SessionCellDataFilter::SessionCellDataFilter`. -/
def SessionCellDataFilter (cellDataBasePath cellDataVersion : Str) : FilterBase :=
  let vpath := replace cellDataBasePath '\\' '/'
  { m_path := vpath, m_pattern := "celldata".toList ++ cellDataVersion }

/-- The class `MMSettingInMMappedKVFilter`: a `FilterBase` with the member
`m_suffix`. -/
structure MMSettingInMMappedKVFilter extends FilterBase where
  m_suffix : Str
  deriving DecidableEq, Repr

/-- The constructor `MMSettingInMMappedKVFilter(uid)`. -/
def MMSettingInMMappedKVFilter.ofUid (uid : Str) : MMSettingInMMappedKVFilter :=
  let m_pattern := "Documents/MMappedKV/".toList
  { m_pattern := m_pattern
    m_path := m_pattern ++ "mmsetting.archive.".toList ++ uid
    m_suffix := ".crc".toList }

/-- The default constructor `MMSettingInMMappedKVFilter()`. -/
def MMSettingInMMappedKVFilter.default : MMSettingInMMappedKVFilter :=
  let m_pattern := "Documents/MMappedKV/".toList
  { m_pattern := m_pattern
    m_path := m_pattern ++ "mmsetting.archive.".toList
    m_suffix := ".crc".toList }

/-- The member `MMSettingInMMappedKVFilter::getPrefix`. -/
def MMSettingInMMappedKVFilter.getPrefix (_f : MMSettingInMMappedKVFilter) : Str :=
  "mmsetting.archive.".toList

/-- The member `MMSettingInMMappedKVFilter::operator==`, which hides the one
of the base class. -/
def MMSettingInMMappedKVFilter.opEq (f : MMSettingInMMappedKVFilter) (s : ITunesFile) : Bool :=
  startsWith s.relativePath f.m_path && !endsWith s.relativePath f.m_suffix

/-- The member `MMSettingInMMappedKVFilter::parse`, which hides the one of the
base class. -/
def MMSettingInMMappedKVFilter.parse (f : MMSettingInMMappedKVFilter) (s : ITunesFile) :
    Option Str :=
  if f.opEq s then substr s.relativePath f.m_pattern.length else some []

/-! ## Ordered containers

`std::map<std::string, V>` and `std::set<std::string>` keep their elements in
ascending order of the keys, without duplicates. -/

/-- A `std::set<std::string>`: the elements in ascending order. -/
abbrev StrSet := List Str

/-- The member `std::set::insert`: the element goes to its place in the order,
unless an equivalent element (neither smaller nor greater) is present. -/
def StrSet.insert (s : Str) : StrSet → StrSet
  | [] => [s]
  | x :: xs =>
    if strLt s x then s :: x :: xs
    else if strLt x s then x :: StrSet.insert s xs
    else x :: xs

/-- A `std::map<std::string, V>`: the entries in ascending order of the keys. -/
abbrev StdMap (V : Type) := List (Str × V)

/-- The member `std::map::find`: the mapped value, `none` for `end()`. -/
def StdMap.find {V : Type} (m : StdMap V) (k : Str) : Option V := m.lookup k

/-- Insertion of an entry with a key that is not in the map, at its place in
the order of the keys. -/
def StdMap.insertNew {V : Type} (k : Str) (v : V) : StdMap V → StdMap V
  | [] => [(k, v)]
  | (k1, v1) :: rest =>
    if strLt k k1 then (k, v) :: (k1, v1) :: rest else (k1, v1) :: StdMap.insertNew k v rest

/-- A write through the reference to the value mapped to `k`. -/
def StdMap.update {V : Type} (k : Str) (f : V → V) : StdMap V → StdMap V
  | [] => []
  | (k1, v1) :: rest =>
    if k1 = k then (k1, f v1) :: rest else (k1, v1) :: StdMap.update k f rest

/-- The member `std::map::operator[]`, as far as it changes the map: a key that
is absent is inserted with the value-initialised `dflt`. -/
def StdMap.subscript {V : Type} (m : StdMap V) (k : Str) (dflt : V) : StdMap V :=
  match m.find k with
  | some _ => m
  | none => StdMap.insertNew k dflt m

/-! ## `MsgRecord` and the parsing options -/

/-- The struct `MsgRecord`. -/
structure MsgRecord where
  createTime : Int
  message : Str
  des : Int
  type : Int
  msgId : Int
  deriving DecidableEq, Repr

/-- The enumerator `SPO_IGNORE_AVATAR = 1 << 0`. -/
def SPO_IGNORE_AVATAR : Int := 1 <<< (0 : Int)
/-- The enumerator `SPO_IGNORE_AUDIO = 1 << 1`. -/
def SPO_IGNORE_AUDIO : Int := 1 <<< (1 : Int)
/-- The enumerator `SPO_IGNORE_IMAGE = 1 << 2`. -/
def SPO_IGNORE_IMAGE : Int := 1 <<< (2 : Int)
/-- The enumerator `SPO_IGNORE_VIDEO = 1 << 3`. -/
def SPO_IGNORE_VIDEO : Int := 1 <<< (3 : Int)
/-- The enumerator `SPO_IGNORE_EMOJI = 1 << 4`. -/
def SPO_IGNORE_EMOJI : Int := 1 <<< (4 : Int)
/-- The enumerator `SPO_IGNORE_FILE = 1 << 5`. -/
def SPO_IGNORE_FILE : Int := 1 <<< (5 : Int)
/-- The enumerator `SPO_IGNORE_CARD = 1 << 6`. -/
def SPO_IGNORE_CARD : Int := 1 <<< (6 : Int)
/-- The enumerator `SPO_IGNORE_SHARING = 1 << 7`. -/
def SPO_IGNORE_SHARING : Int := 1 <<< (7 : Int)
/-- The enumerator `SPO_IGNORE_HTML_ENC = 1 << 8`. -/
def SPO_IGNORE_HTML_ENC : Int := 1 <<< (8 : Int)
/-- The enumerator `SPO_TEXT_MODE = 0xFFFF`. -/
def SPO_TEXT_MODE : Int := 0xFFFF
/-- The enumerator `SPO_DESC = 1 << 16`. -/
def SPO_DESC : Int := 1 <<< (16 : Int)
/-- The enumerator `SPO_ICON_IN_SESSION = 1 << 17`. -/
def SPO_ICON_IN_SESSION : Int := 1 <<< (17 : Int)

/-! ## `TemplateValues` -/

/-- The class `TemplateValues`. -/
structure TemplateValues where
  m_name : Str
  m_values : StdMap Str
  deriving DecidableEq, Repr

/-- The default constructor `TemplateValues()`. -/
def TemplateValues.new : TemplateValues := ⟨[], []⟩

/-- The constructor `TemplateValues(name)`. -/
def TemplateValues.ofName (name : Str) : TemplateValues := ⟨name, []⟩

/-- The member `TemplateValues::getName`. -/
def TemplateValues.getName (tv : TemplateValues) : Str := tv.m_name

/-- The member `TemplateValues::setName`. -/
def TemplateValues.setName (tv : TemplateValues) (name : Str) : TemplateValues :=
  { tv with m_name := name }

/-- The member `TemplateValues::operator[]` in a read `tv[k]`: the record after
the access and the string that the returned reference denotes. -/
def TemplateValues.subscript (tv : TemplateValues) (k : Str) : TemplateValues × Str :=
  let m := tv.m_values.subscript k []
  ({ tv with m_values := m }, (m.find k).getD [])

/-- The statement `tv[k] = v`: `operator[]` followed by the assignment to the
returned reference. -/
def TemplateValues.assign (tv : TemplateValues) (k v : Str) : TemplateValues :=
  { tv with m_values := StdMap.update k (fun _ => v) (tv.m_values.subscript k []) }

/-- The member `TemplateValues::hasValue`. -/
def TemplateValues.hasValue (tv : TemplateValues) (key : Str) : Bool :=
  (tv.m_values.find key).isSome

/-- The member `TemplateValues::clear`. -/
def TemplateValues.clear (tv : TemplateValues) : TemplateValues :=
  { tv with m_values := [] }

/-- The member `TemplateValues::clearName`. -/
def TemplateValues.clearName (tv : TemplateValues) : TemplateValues :=
  { tv with m_name := [] }

/-! ## `SessionParser`

The member `m_options` is an `int` used as a set of bits.  It is modelled by an
integer in two's complement of unbounded width, on which `&`, `|` and `~` act
bit by bit as they do on the 32 bits of the `int`. -/

/-- The class `SessionParser`, reduced to the member `m_options`. -/
structure SessionParser where
  m_options : Int
  deriving DecidableEq, Repr

/-- The member `SessionParser::ignoreAudio`. -/
def SessionParser.ignoreAudio (p : SessionParser) (ignoreAudio : Bool) : SessionParser :=
  if ignoreAudio then { p with m_options := Int.lor p.m_options SPO_IGNORE_AUDIO }
  else { p with m_options := Int.land p.m_options (Int.lnot SPO_IGNORE_AUDIO) }

/-- The member `SessionParser::setOrder`. -/
def SessionParser.setOrder (p : SessionParser) (asc : Bool) : SessionParser :=
  if asc then { p with m_options := Int.land p.m_options (Int.lnot SPO_DESC) }
  else { p with m_options := Int.lor p.m_options SPO_DESC }

/-- Modelled from the spec: the total order over (timestamp, row identifier)
in which `SessionParser::parse` emits the rows; the body of `parse` is in
`WechatParser.cpp`, which is not part of the sources at hand. -/
def rowLe (a b : MsgRecord) : Bool :=
  a.createTime < b.createTime || (a.createTime == b.createTime && a.msgId ≤ b.msgId)

/-- Modelled from the spec: the streaming of records to the sink by
`SessionParser::parse` (`WechatParser.cpp`, not part of the sources at hand);
the records are handed over one by one and a sink that returns "stop" ends the
stream after the record it was given. -/
def emitToSink (handler : MsgRecord → Bool) : List MsgRecord → List MsgRecord
  | [] => []
  | r :: rs => if handler r then r :: emitToSink handler rs else [r]

/-- Modelled from the spec: `SessionParser::parse` of `WechatParser.cpp`, which
is not part of the sources at hand, as far as the order of its output goes:
the rows of the session are emitted to the sink in the configured order,
ascending or (with `SPO_DESC` set) descending creation time, the row identifier
breaking ties; the result is the records handed to the sink and their count. -/
def SessionParser.parse (p : SessionParser) (rows : List MsgRecord)
    (handler : MsgRecord → Bool) : List MsgRecord × Int :=
  let ordered :=
    if p.m_options.testBit 16 then rows.insertionSort (fun a b => rowLe b a = true)
    else rows.insertionSort (fun a b => rowLe a b = true)
  let emitted := emitToSink handler ordered
  (emitted, emitted.length)

/-! ## The view `CView` of `View.h`

The window controls are modelled by the part of their state that the handlers
read or write; the calls into the export core (`Exporter`, not part of the
sources at hand) are recorded in a log. -/

/-- Modelled from the spec: `BackupManifest` of `ITunesParser.h`, which is not
part of the sources at hand; the members that the view reads, `getPath()` and
`isEncrypted()`. -/
structure BackupManifest where
  path : Str
  encrypted : Bool
  deriving DecidableEq, Repr

/-- Modelled from the spec: `Friend` of `WechatObjects.h`, which is not part of
the sources at hand; the spec's Profile, with `getUsrName()` and
`getDisplayName()`. -/
structure Friend where
  usrName : Str
  displayName : Str
  deriving DecidableEq, Repr

/-- Modelled from the spec: `Session` of `WechatObjects.h`, which is not part of
the sources at hand; the owning account `getOwner()`, the identifier
`getUsrName()`, the display name and the row count. -/
structure Session where
  owner : Friend
  usrName : Str
  displayName : Str
  recordCount : Int
  deriving DecidableEq, Repr

/-- An item of the list view `IDC_SESSIONS`: its check state and its item data,
a pointer to a `Session` (`none` for `NULL`). -/
structure ListItem where
  checked : Bool
  data : Option Session
  deriving DecidableEq, Repr

/-- The string resources that the handlers show in a message box. -/
inductive MsgId where
  | IDS_SEL_BACKUP_DIR
  | IDS_ENC_BKP_NOT_SUPPORTED
  | IDS_INVALID_OUTPUT_DIR
  | IDS_FAILED_TO_LOAD_BKP
  deriving DecidableEq, Repr

/-- An entry of the combo box `IDC_USERS`: the string `IDS_ALL_USERS` or the
display name of a user. -/
inductive UserItem where
  | allUsers
  | user (displayName : Str)
  deriving DecidableEq, Repr

/-- The object `Exporter` as the view configures it: the arguments of the
constructor and of the setters that `OnBnClickedExport` calls. -/
structure Exporter where
  resDir : Str
  backup : Str
  output : Str
  asc : Bool
  filesInSessionFolder : Bool
  textMode : Bool
  usersAndSessions : StdMap StrSet
  deriving DecidableEq, Repr

/-- A call into the export core. -/
inductive CoreCall where
  /-- The call `Exporter::loadUsersAndSessions` on a backup. -/
  | loadUsersAndSessions (backup : Str)
  /-- The call `Exporter::run` on a configured exporter. -/
  | run (exporter : Exporter)
  deriving DecidableEq, Repr

/-- What a handler obtains from its environment: the registry, the file system
and the export core. -/
structure Env where
  /-- The text of `IDC_OUTPUT`. -/
  outputDir : Str
  /-- The result of `PathFileExists` on the output directory. -/
  pathFileExists : Bool
  /-- The result of `GetCurrentDirectory`, `none` for the return value 0. -/
  currentDirectory : Option Str
  /-- The result of `GetDescOrder()`. -/
  descOrder : Bool
  /-- The result of `GetSavingInSession()`. -/
  savingInSession : Bool
  /-- The result of `GetOutputFormat()`. -/
  outputFormat : Nat
  /-- What `Exporter::loadUsersAndSessions` stores in its argument. -/
  loaded : List (Friend × List Session)
  /-- The return value of `Exporter::run`. -/
  runResult : Bool
  deriving DecidableEq, Repr

/-- The enumerator `OUTPUT_FORMAT_TEXT`. -/
def OUTPUT_FORMAT_TEXT : Nat := 1

/-- The class `CView`: the members and the state of the controls. -/
structure CView where
  m_exporter : Option Exporter
  m_manifests : List BackupManifest
  m_usersAndSessions : List (Friend × List Session)
  /-- The current selection of the combo box `IDC_BACKUP`, -1 for none. -/
  backupCurSel : Int
  /-- The strings of the combo box `IDC_USERS`. -/
  userItems : List UserItem
  /-- The current selection of the combo box `IDC_USERS`, -1 for none. -/
  userCurSel : Int
  /-- The items of the list view `IDC_SESSIONS`. -/
  sessionItems : List ListItem
  /-- The enabled state that `EnableInteractiveCtrls` gives to `IDC_EXPORT` and
  the other interactive controls, read by `IsUIEnabled`. -/
  ctrlsEnabled : Bool
  /-- The enabled state of `IDC_CANCEL`. -/
  cancelEnabled : Bool
  /-- The message boxes shown so far. -/
  msgBoxes : List MsgId
  /-- The calls into the export core so far. -/
  coreLog : List CoreCall
  deriving DecidableEq, Repr

/-- The state after `OnInitDialog`: no exporter, nothing loaded, the controls
enabled as the dialog template creates them. -/
def CView.init : CView :=
  { m_exporter := none, m_manifests := [], m_usersAndSessions := [], backupCurSel := -1,
    userItems := [], userCurSel := -1, sessionItems := [], ctrlsEnabled := true,
    cancelEnabled := false, msgBoxes := [], coreLog := [] }

/-- The member `CView::MsgBox`. -/
def CView.MsgBox (v : CView) (id : MsgId) : CView :=
  { v with msgBoxes := v.msgBoxes ++ [id] }

/-- The member `CView::IsUIEnabled`. -/
def CView.IsUIEnabled (v : CView) : Bool := v.ctrlsEnabled

/-- The member `CView::EnableInteractiveCtrls`. -/
def CView.EnableInteractiveCtrls (v : CView) (enabled : Bool) (cancellable : Bool) : CView :=
  { v with ctrlsEnabled := enabled, cancelEnabled := !enabled && cancellable }

/-- The element `m_manifests[cbmBox.GetCurSel()]`, `none` when the index lies
outside of the vector. -/
def CView.selectedManifest (v : CView) : Option BackupManifest :=
  if 0 ≤ v.backupCurSel then v.m_manifests.get? v.backupCurSel.toNat else none

/-- The member `CView::LoadUsers`. -/
def CView.LoadUsers (v : CView) : CView :=
  let items := (if !v.m_usersAndSessions.isEmpty then [UserItem.allUsers] else []) ++
    v.m_usersAndSessions.map fun us => UserItem.user us.1.displayName
  { v with userItems := v.userItems ++ items,
           userCurSel := if 0 < (v.userItems ++ items).length then 0 else v.userCurSel }

/-- The handler `CView::OnBackupSelChange`; `none` when the selection indexes
`m_manifests` out of range. -/
def CView.OnBackupSelChange (env : Env) (v : CView) : Option CView :=
  let v := { v with userItems := [], userCurSel := -1, m_usersAndSessions := [] }
  if v.backupCurSel = -1 then
    some { v with sessionItems := [] }
  else
    match v.selectedManifest with
    | none => none
    | some manifest =>
      if manifest.encrypted then
        some ({ v with sessionItems := [] }.MsgBox .IDS_ENC_BKP_NOT_SUPPORTED)
      else
        match env.currentDirectory with
        | none => some v
        | some _ =>
          let v := { v with coreLog := v.coreLog ++ [CoreCall.loadUsersAndSessions manifest.path],
                            m_usersAndSessions := v.m_usersAndSessions ++ env.loaded }
          some v.LoadUsers

/-- The loop of `CView::OnBnClickedExport` over the items of the list view,
which fills the map `usersAndSessions`. -/
def CView.collectSelection : List ListItem → StdMap StrSet → StdMap StrSet
  | [], usersAndSessions => usersAndSessions
  | item :: items, usersAndSessions =>
    if !item.checked then
      CView.collectSelection items usersAndSessions
    else
      match item.data with
      | none => CView.collectSelection items usersAndSessions
      | some session =>
        let usrName := session.owner.usrName
        let withUser :=
          match usersAndSessions.find usrName with
          | some _ => usersAndSessions
          | none => StdMap.insertNew usrName [] usersAndSessions
        CView.collectSelection items
          (StdMap.update usrName (StrSet.insert session.usrName) withUser)

/-- The handler `CView::OnBnClickedExport`; `none` when the selection indexes
`m_manifests` out of range. -/
def CView.OnBnClickedExport (env : Env) (v : CView) : Option CView :=
  if v.m_exporter.isSome then
    some v
  else if v.backupCurSel = -1 then
    some (v.MsgBox .IDS_SEL_BACKUP_DIR)
  else
    match v.selectedManifest with
    | none => none
    | some manifest =>
      if manifest.encrypted then
        some (v.MsgBox .IDS_ENC_BKP_NOT_SUPPORTED)
      else if !env.pathFileExists then
        some (v.MsgBox .IDS_INVALID_OUTPUT_DIR)
      else
        match env.currentDirectory with
        | none => some v
        | some resDir =>
          let usersAndSessions := CView.collectSelection v.sessionItems []
          let exporter : Exporter :=
            { resDir := resDir, backup := manifest.path, output := env.outputDir,
              asc := !env.descOrder, filesInSessionFolder := env.savingInSession,
              textMode := env.outputFormat == OUTPUT_FORMAT_TEXT,
              usersAndSessions := usersAndSessions }
          let v := { v with m_exporter := some exporter, coreLog := v.coreLog ++ [CoreCall.run exporter] }
          if env.runResult then some (v.EnableInteractiveCtrls false true) else some v

/-- The handler `CView::OnStart`. -/
def CView.OnStart (cancellable : Bool) (v : CView) : CView :=
  v.EnableInteractiveCtrls false cancellable

/-- The handler `CView::OnComplete`. -/
def CView.OnComplete (v : CView) : CView :=
  { v with m_exporter := none }.EnableInteractiveCtrls true true

/-- The search `std::find(begin, end, value)` on a vector: the offset of the
first element equal to the value, `none` for `end`. -/
def stdFind {M : Type} [BEq M] (l : List M) (value : M) : Option Nat :=
  l.findIdx? fun e => e == value

/-- The loop of `CView::UpdateBackups` over the given manifests, from the
current `m_manifests` and `selectedIndex`; for an element at the offset `k`
the call `std::distance(it2, m_manifests.cbegin())` is `cbegin - it2`, the
negative of `k`. -/
def updateBackupsLoop {M : Type} [BEq M] : List M → List M → Int → List M × Int
  | [], m_manifests, selectedIndex => (m_manifests, selectedIndex)
  | it :: rest, m_manifests, selectedIndex =>
    match stdFind m_manifests it with
    | some k =>
      updateBackupsLoop rest m_manifests
        (if selectedIndex = -1 then -(k : Int) else selectedIndex)
    | none =>
      let pushed := m_manifests ++ [it]
      updateBackupsLoop rest pushed
        (if selectedIndex = -1 then (pushed.length : Int) - 1 else selectedIndex)

/-- The message `CB_SETCURSEL` of a combo box with `count` items: an index
outside of the list clears the selection. -/
def SetCurSel (count : Nat) (nCurSel : Int) : Int :=
  if 0 ≤ nCurSel ∧ nCurSel < count then nCurSel else -1

/-- The member `CView::UpdateBackups`: the view afterwards, with the value of
`selectedIndex` that the loop computed. -/
def CView.UpdateBackups (v : CView) (manifests : List BackupManifest) : CView × Int :=
  if !manifests.isEmpty then
    let r := updateBackupsLoop manifests v.m_manifests (-1)
    let count := r.1.length
    ({ v with m_manifests := r.1,
              backupCurSel :=
                if r.2 ≠ -1 ∧ r.2 < (count : Int) then SetCurSel count r.2 else -1 }, r.2)
  else (v, -1)

/-! ## Sample views -/

/-- A backup that is not encrypted. -/
def samplePlainBackup : BackupManifest := ⟨"backup/plain".toList, false⟩

/-- A backup that is encrypted. -/
def sampleEncryptedBackup : BackupManifest := ⟨"backup/enc".toList, true⟩

/-- A third backup. -/
def sampleThirdBackup : BackupManifest := ⟨"backup/third".toList, false⟩

/-- A user. -/
def sampleFriend : Friend := ⟨"wxid_me".toList, "Me".toList⟩

/-- A session of the user. -/
def sampleSession : Session := ⟨sampleFriend, "wxid_peer".toList, "Peer".toList, 3⟩

/-- Another session of the user. -/
def sampleOtherSession : Session := ⟨sampleFriend, "room@chatroom".toList, [], 5⟩

/-- A list view with a checked session, an unchecked session and a checked item
without data. -/
def sampleItems : List ListItem :=
  [⟨true, some sampleSession⟩, ⟨false, some sampleOtherSession⟩, ⟨true, none⟩]

/-- An idle view with the plain backup selected among two. -/
def samplePlainView : CView :=
  { CView.init with
    m_manifests := [samplePlainBackup, sampleEncryptedBackup], backupCurSel := 0,
    m_usersAndSessions := [(sampleFriend, [sampleSession, sampleOtherSession])],
    sessionItems := sampleItems }

/-- An idle view with the encrypted backup selected among two. -/
def sampleEncryptedView : CView := { samplePlainView with backupCurSel := 1 }

/-- An environment in which the export can start. -/
def sampleEnv : Env :=
  { outputDir := "out".toList, pathFileExists := true, currentDirectory := some "res".toList,
    descOrder := false, savingInSession := true, outputFormat := 0,
    loaded := [(sampleFriend, [sampleSession])], runResult := true }

/-- An environment in which `Exporter::run` fails. -/
def sampleEnvRunFails : Env := { sampleEnv with runResult := false }

/-! ## Sample entries -/

/-- An entry outside of every prefix used by the filters. -/
def sampleLibraryFile : ITunesFile := ⟨"Library/x".toList, []⟩

/-- A session cell data file under the prefix `a/`. -/
def sampleCellDataFile : ITunesFile := ⟨"a/x/celldataV7/y".toList, []⟩

/-- A message shard under the base `a`. -/
def sampleMessageDbFile : ITunesFile := ⟨"a/DB/message_12.sqlite".toList, []⟩

/-- A user folder. -/
def sampleUserFolder : ITunesFile := ⟨"Documents/0123456789abcdef0123456789abcdef".toList, []⟩

/-- An index of five entries in ascending order of the virtual paths. -/
def sampleIndex : List ITunesFile :=
  [⟨"Documents".toList, []⟩, ⟨"Documents/a".toList, []⟩, ⟨"Documents/b/c".toList, []⟩,
    ⟨"Documents0".toList, []⟩, ⟨"Library/x".toList, []⟩]

/-! ## Auxiliary facts on the string functions -/

theorem startsWith_iff (str pre : Str) : startsWith str pre = true ↔ pre <+: str := by
  unfold startsWith
  exact List.isPrefixOf_iff_prefix

theorem startsWith_eq_false_iff (str pre : Str) :
    startsWith str pre = false ↔ ¬ pre <+: str := by
  rw [← startsWith_iff, Bool.not_eq_true]

theorem endsWith_iff (str suffix : Str) : endsWith str suffix = true ↔ suffix <:+ str := by
  unfold endsWith
  exact List.isSuffixOf_iff_suffix

theorem findAux_isSome (pat : Str) (i : Nat) (rest : Str) :
    (findAux pat i rest).isSome = true ↔ pat <:+: rest := by
  induction rest generalizing i with
  | nil =>
    unfold findAux
    by_cases h : pat.isPrefixOf [] = true
    · simp only [h, if_true, Option.isSome_some, true_iff]
      exact (List.isPrefixOf_iff_prefix.mp h).isInfix
    · simp only [h, Bool.false_eq_true, if_false, Option.isSome_none, false_iff]
      intro hin
      apply h
      rw [List.isPrefixOf_iff_prefix]
      rw [List.infix_nil] at hin
      rw [hin]
  | cons c cs ih =>
    unfold findAux
    rw [List.infix_cons_iff]
    by_cases h : pat.isPrefixOf (c :: cs) = true
    · simp only [h, if_true, Option.isSome_some, true_iff]
      exact Or.inl (List.isPrefixOf_iff_prefix.mp h)
    · simp only [h, Bool.false_eq_true, if_false]
      rw [ih]
      constructor
      · exact Or.inr
      · rintro (hp | hi)
        · exact absurd (List.isPrefixOf_iff_prefix.mpr hp) h
        · exact hi

theorem find_past_path (p r pat : Str) :
    (find (p ++ r) pat p.length).isSome = true ↔ pat <:+: r := by
  unfold find
  rw [if_pos (by simp), List.drop_left, findAux_isSome]

theorem findCharAux_isSome (c : Char) (i : Nat) (rest : Str) :
    (findCharAux c i rest).isSome = true ↔ c ∈ rest := by
  induction rest generalizing i with
  | nil => simp [findCharAux]
  | cons x xs ih =>
    unfold findCharAux
    by_cases h : x = c
    · simp [h]
    · simp only [h, if_false, ih, List.mem_cons]
      constructor
      · exact Or.inr
      · rintro (hc | hm)
        · exact absurd hc.symm h
        · exact hm

theorem findChar_past_path (p r : Str) (c : Char) :
    (findChar (p ++ r) c p.length).isSome = true ↔ c ∈ r := by
  unfold findChar
  rw [if_pos (by simp), List.drop_left, findCharAux_isSome]

theorem substr_past_path (p r : Str) : substr (p ++ r) p.length = some r := by
  unfold substr
  rw [if_pos (by simp), List.drop_left]

theorem FilterBase_opEq_of_infix (f : FilterBase) (s : ITunesFile) (r : Str)
    (hpath : s.relativePath = f.m_path ++ r) (hpat : f.m_pattern <:+: r) :
    f.opEq s = true := by
  unfold FilterBase.opEq
  rw [Bool.and_eq_true, startsWith_iff]
  refine ⟨⟨r, hpath.symm⟩, ?_⟩
  rw [hpath, find_past_path]
  exact hpat

/-! ## Matching outside of the prefix -/

/-- C1: an entry whose virtual path does not start with the prefix `m_path` is
matched (`operator==`) by no filter kind: not by `FilterBase` (and so
`SessionCellDataFilter`), not by `RegexFilterBase` (and so `MessageDbFilter`),
not by `UserFolderFilter`, not by `MMSettingInMMappedKVFilter`. -/
theorem opEq_false_outside_path (s : ITunesFile) (fb : FilterBase) (rb uf : RegexFilterBase)
    (mm : MMSettingInMMappedKVFilter) :
    (¬ fb.m_path <+: s.relativePath → fb.opEq s = false) ∧
    (¬ rb.m_path <+: s.relativePath → rb.opEq s = false) ∧
    (¬ uf.m_path <+: s.relativePath → UserFolderFilter.opEq uf s = false) ∧
    (¬ mm.m_path <+: s.relativePath → mm.opEq s = false) := by
  refine ⟨fun h => ?_, fun h => ?_, fun h => ?_, fun h => ?_⟩
  · rw [← startsWith_eq_false_iff] at h
    simp [FilterBase.opEq, h]
  · rw [← startsWith_eq_false_iff] at h
    simp [RegexFilterBase.opEq, h]
  · rw [← startsWith_eq_false_iff] at h
    simp [UserFolderFilter.opEq, h]
  · rw [← startsWith_eq_false_iff] at h
    simp [MMSettingInMMappedKVFilter.opEq, h]

/-- The filters of C1 on the path `Library/x`, which lies under none of their
prefixes. -/
theorem opEq_false_outside_path_witness :
    (¬ (SessionCellDataFilter "Documents/".toList "V7".toList).m_path <+:
        sampleLibraryFile.relativePath ∧
      (SessionCellDataFilter "Documents/".toList "V7".toList).opEq sampleLibraryFile = false) ∧
    (¬ (MessageDbFilter "Documents".toList).m_path <+: sampleLibraryFile.relativePath ∧
      (MessageDbFilter "Documents".toList).opEq sampleLibraryFile = false) ∧
    (¬ UserFolderFilter.m_path <+: sampleLibraryFile.relativePath ∧
      UserFolderFilter.opEq UserFolderFilter sampleLibraryFile = false) ∧
    (¬ MMSettingInMMappedKVFilter.default.m_path <+: sampleLibraryFile.relativePath ∧
      MMSettingInMMappedKVFilter.default.opEq sampleLibraryFile = false) :=
  have h := opEq_false_outside_path sampleLibraryFile
    (SessionCellDataFilter "Documents/".toList "V7".toList)
    (MessageDbFilter "Documents".toList) UserFolderFilter MMSettingInMMappedKVFilter.default
  ⟨⟨by decide, h.1 (by decide)⟩, ⟨by decide, h.2.1 (by decide)⟩,
    ⟨by decide, h.2.2.1 (by decide)⟩, ⟨by decide, h.2.2.2 (by decide)⟩⟩

/-! ## The literal filter -/

/-- C2: the literal filter (`FilterBase::operator==`) matches an entry exactly
when its virtual path is the prefix followed by a remainder that contains the
pattern as a substring; so it is for `SessionCellDataFilter`, whose pattern is
`celldata` followed by the version.  The occurrence lies in the remainder, so
one that overlaps the prefix does not count. -/
theorem FilterBase_opEq_iff (f : FilterBase) (s : ITunesFile) :
    (f.opEq s = true ↔ ∃ r : Str, s.relativePath = f.m_path ++ r ∧ f.m_pattern <:+: r) ∧
    ∀ base version : Str,
      ((SessionCellDataFilter base version).opEq s = true ↔
        ∃ r : Str, s.relativePath = replace base '\\' '/' ++ r ∧
          "celldata".toList ++ version <:+: r) := by
  have key : ∀ g : FilterBase,
      g.opEq s = true ↔ ∃ r : Str, s.relativePath = g.m_path ++ r ∧ g.m_pattern <:+: r := by
    intro g
    constructor
    · intro h
      unfold FilterBase.opEq at h
      rw [Bool.and_eq_true, startsWith_iff] at h
      obtain ⟨⟨r, hr⟩, hf⟩ := h
      rw [← hr, find_past_path] at hf
      exact ⟨r, hr.symm, hf⟩
    · rintro ⟨r, hr, hin⟩
      exact FilterBase_opEq_of_infix g s r hr hin
  exact ⟨key f, fun base version => key (SessionCellDataFilter base version)⟩


/-! ## Auxiliary facts on the regular-expression matcher -/

theorem matchNodes_lits (s : Str) (ns : Regex) (pos : Nat) (t : Str) (o : Option Nat)
    (g : Option (Nat × Nat)) :
    matchNodes (lits s ++ ns) ⟨pos, s ++ t, o, g⟩ = matchNodes ns ⟨pos + s.length, t, o, g⟩ := by
  induction s generalizing pos with
  | nil => simp [lits]
  | cons c cs ih =>
    rw [show lits (c :: cs) ++ ns = RegexNode.chr c :: (lits cs ++ ns) from rfl,
      show (c :: cs) ++ t = c :: (cs ++ t) from rfl]
    simp only [matchNodes, if_true, List.length_cons]
    rw [ih (pos + 1)]
    congr 2
    omega

theorem matchNodes_lits_some (s : Str) (ns : Regex) (st r : MatchState)
    (h : matchNodes (lits s ++ ns) st = some r) :
    ∃ t, st.rest = s ++ t ∧
      matchNodes ns ⟨st.pos + s.length, t, st.open1, st.group1⟩ = some r := by
  induction s generalizing st with
  | nil => exact ⟨st.rest, rfl, by simpa [lits] using h⟩
  | cons c cs ih =>
    obtain ⟨pos, rest, o, g⟩ := st
    cases rest with
    | nil => simp [lits, matchNodes] at h
    | cons x xs =>
      rw [show lits (c :: cs) ++ ns = RegexNode.chr c :: (lits cs ++ ns) from rfl] at h
      simp only [matchNodes] at h
      by_cases hx : x = c
      · rw [if_pos hx] at h
        obtain ⟨t, ht, hm⟩ := ih ⟨pos + 1, xs, o, g⟩ h
        simp only at ht hm
        refine ⟨t, by simp [hx, ht], ?_⟩
        simp only [List.length_cons]
        rw [← hm]
        congr 2
        omega
      · rw [if_neg hx] at h
        exact absurd h (by simp)

theorem matchRange_some (lo hi : Char) (k : MatchState → Option MatchState) (max : Nat) :
    ∀ (min : Nat) (st r : MatchState), matchRange lo hi k min max st = some r →
      ∃ ds t, st.rest = ds ++ t ∧ min ≤ ds.length ∧ ds.length ≤ max ∧
        (∀ d ∈ ds, lo ≤ d ∧ d ≤ hi) ∧
        k ⟨st.pos + ds.length, t, st.open1, st.group1⟩ = some r := by
  induction max with
  | zero =>
    intro min st r h
    unfold matchRange at h
    by_cases hm : min = 0
    · rw [if_pos hm] at h
      exact ⟨[], st.rest, rfl, by simp [hm], by simp, by simp, by simpa using h⟩
    · rw [if_neg hm] at h
      exact absurd h (by simp)
  | succ max ih =>
    intro min st r h
    have stop : (if min = 0 then k st else none) = some r →
        ∃ ds t, st.rest = ds ++ t ∧ min ≤ ds.length ∧ ds.length ≤ max + 1 ∧
          (∀ d ∈ ds, lo ≤ d ∧ d ≤ hi) ∧
          k ⟨st.pos + ds.length, t, st.open1, st.group1⟩ = some r := by
      intro h0
      by_cases hm : min = 0
      · rw [if_pos hm] at h0
        exact ⟨[], st.rest, rfl, by simp [hm], by simp, by simp, by simpa using h0⟩
      · rw [if_neg hm] at h0
        exact absurd h0 (by simp)
    obtain ⟨pos, rest, o, g⟩ := st
    unfold matchRange at h
    cases rest with
    | nil => exact stop h
    | cons x xs =>
      simp only at h
      by_cases hx : lo ≤ x ∧ x ≤ hi
      · rw [if_pos hx] at h
        cases hrec : matchRange lo hi k (min - 1) max ⟨pos + 1, xs, o, g⟩ with
        | none =>
          rw [hrec] at h
          exact stop h
        | some r1 =>
          rw [hrec] at h
          simp only [Option.some.injEq] at h
          subst h
          obtain ⟨ds, t, hrest, hmin, hmax, hall, hk⟩ := ih _ _ _ hrec
          simp only at hrest hk
          refine ⟨x :: ds, t, by simp [hrest], by simp; omega, by simp; omega, ?_, ?_⟩
          · intro d hd
            rcases List.mem_cons.mp hd with rfl | hd
            · exact hx
            · exact hall d hd
          · simp only [List.length_cons]
            rw [← hk]
            congr 2
            omega
      · rw [if_neg hx] at h
        exact stop h

theorem matchRange_isSome (lo hi : Char) (k : MatchState → Option MatchState) (max : Nat) :
    ∀ (min pos : Nat) (ds t : Str) (o : Option Nat) (g : Option (Nat × Nat)),
      (∀ d ∈ ds, lo ≤ d ∧ d ≤ hi) → min ≤ ds.length → ds.length ≤ max →
      (k ⟨pos + ds.length, t, o, g⟩).isSome = true →
      (matchRange lo hi k min max ⟨pos, ds ++ t, o, g⟩).isSome = true := by
  induction max with
  | zero =>
    intro min pos ds t o g _ hmin hmax hk
    have hds : ds = [] := List.length_eq_zero.mp (by omega)
    subst hds
    have hm : min = 0 := by simpa using hmin
    unfold matchRange
    simpa [hm] using hk
  | succ max ih =>
    intro min pos ds t o g hall hmin hmax hk
    cases ds with
    | nil =>
      have hm : min = 0 := by simpa using hmin
      subst hm
      simp only [List.length_nil, Nat.add_zero] at hk
      unfold matchRange
      simp only [List.nil_append, if_true]
      cases t with
      | nil => exact hk
      | cons x xs =>
        simp only
        split
        · split
          · rfl
          · exact hk
        · exact hk
    | cons d ds =>
      have hd : lo ≤ d ∧ d ≤ hi := hall d (List.mem_cons_self _ _)
      have hrec := ih (min - 1) (pos + 1) ds t o g
        (fun e he => hall e (List.mem_cons_of_mem _ he))
        (by simp only [List.length_cons] at hmin; omega)
        (by simp only [List.length_cons] at hmax; omega)
        (by
          simp only [List.length_cons] at hk
          rw [← hk]
          congr 3
          omega)
      unfold matchRange
      simp only [List.cons_append, hd, and_self, if_true]
      cases hres : matchRange lo hi k (min - 1) max ⟨pos + 1, ds ++ t, o, g⟩ with
      | none => rw [hres] at hrec; exact absurd hrec (by simp)
      | some r1 => rfl

theorem regexSearchFrom_bol_succ (ns : Regex) (pos : Nat) (text : Str) :
    regexSearchFrom (.bol :: ns) (pos + 1) text = none := by
  induction text generalizing pos with
  | nil => simp [regexSearchFrom, matchNodes]
  | cons c cs ih => simp [regexSearchFrom, matchNodes, ih]

theorem regexSearchFrom_bol (ns : Regex) (text : Str) :
    regexSearchFrom (.bol :: ns) 0 text = matchNodes (.bol :: ns) ⟨0, text, none, none⟩ := by
  cases text with
  | nil => rfl
  | cons c cs =>
    unfold regexSearchFrom
    rw [regexSearchFrom_bol_succ]
    cases matchNodes (.bol :: ns) ⟨0, c :: cs, none, none⟩ <;> rfl

theorem matchNodes_bol_zero (ns : Regex) (r : Str) (o : Option Nat) (g : Option (Nat × Nat)) :
    matchNodes (.bol :: ns) ⟨0, r, o, g⟩ = matchNodes ns ⟨0, r, o, g⟩ := by
  simp [matchNodes]

theorem matchNodes_groupOpen (ns : Regex) (p : Nat) (r : Str) (o : Option Nat)
    (g : Option (Nat × Nat)) :
    matchNodes (.groupOpen :: ns) ⟨p, r, o, g⟩ = matchNodes ns ⟨p, r, some p, g⟩ := rfl

theorem matchNodes_range (lo hi : Char) (min max : Nat) (ns : Regex) (st : MatchState) :
    matchNodes (.range lo hi min max :: ns) st =
      matchRange lo hi (fun st1 => matchNodes ns st1) min max st := rfl

theorem matchNodes_close_eol (p : Nat) (r : Str) (a : Nat) (g : Option (Nat × Nat)) :
    matchNodes [.groupClose, .eol] ⟨p, r, some a, g⟩ =
      if r = [] then some ⟨p, r, some a, some (a, p)⟩ else none := by
  cases r <;> simp [matchNodes]

theorem digit_range_iff (d : Char) : ('0' ≤ d ∧ d ≤ '9') ↔ d.isDigit = true := by
  simp [Char.isDigit, Char.le_def, UInt32.le_def]

theorem messageDbPattern_eq :
    messageDbPattern = .bol :: .groupOpen :: (lits "message_".toList ++
      (.range '0' '9' 1 4 :: (lits ".sqlite".toList ++ [.groupClose, .eol]))) := by
  decide

theorem matchNodes_messageDbPattern_some (r : Str) (st : MatchState)
    (h : matchNodes messageDbPattern ⟨0, r, none, none⟩ = some st) :
    (∃ ds : Str, r = "message_".toList ++ ds ++ ".sqlite".toList ∧ 1 ≤ ds.length ∧
      ds.length ≤ 4 ∧ ∀ d ∈ ds, d.isDigit = true) ∧ st.group1 = some (0, r.length) := by
  rw [messageDbPattern_eq, matchNodes_bol_zero, matchNodes_groupOpen] at h
  obtain ⟨t1, h1, h⟩ := matchNodes_lits_some _ _ _ _ h
  rw [matchNodes_range] at h
  obtain ⟨ds, t2, h2, hmin, hmax, hall, h⟩ := matchRange_some _ _ _ _ _ _ _ h
  obtain ⟨t3, h3, h⟩ := matchNodes_lits_some _ _ _ _ h
  simp only at h1 h2 h3 h
  rw [matchNodes_close_eol] at h
  cases t3 with
  | cons x xs => simp at h
  | nil =>
    simp only [if_true, Option.some.injEq] at h
    subst h
    subst h3 h2 h1
    refine ⟨⟨ds, by simp, hmin, hmax, fun d hd => (digit_range_iff d).mp (hall d hd)⟩, ?_⟩
    simp only [List.append_nil, List.length_append, Option.some.injEq, Prod.mk.injEq, true_and]
    omega

theorem matchNodes_messageDbPattern_isSome (ds : Str) (hmin : 1 ≤ ds.length)
    (hmax : ds.length ≤ 4) (hall : ∀ d ∈ ds, d.isDigit = true) :
    (matchNodes messageDbPattern
      ⟨0, "message_".toList ++ ds ++ ".sqlite".toList, none, none⟩).isSome = true := by
  rw [messageDbPattern_eq, matchNodes_bol_zero, matchNodes_groupOpen, List.append_assoc,
    matchNodes_lits, matchNodes_range]
  apply matchRange_isSome _ _ _ _ _ _ _ _ _ _ (fun d hd => (digit_range_iff d).mpr (hall d hd))
    hmin hmax
  have h := matchNodes_lits ".sqlite".toList [.groupClose, .eol]
    (0 + "message_".toList.length + ds.length) [] (some 0) none
  rw [List.append_nil] at h
  rw [h, matchNodes_close_eol]
  rfl

theorem regex_search_messageDbPattern (r : Str) :
    regex_search r messageDbPattern =
      (matchNodes messageDbPattern ⟨0, r, none, none⟩).map fun st => st.group1 := by
  unfold regex_search
  rw [messageDbPattern_eq, regexSearchFrom_bol]

theorem regex_search_messageDbPattern_isSome (r : Str) :
    (regex_search r messageDbPattern).isSome = true ↔
      ∃ ds : Str, r = "message_".toList ++ ds ++ ".sqlite".toList ∧ 1 ≤ ds.length ∧
        ds.length ≤ 4 ∧ ∀ d ∈ ds, d.isDigit = true := by
  rw [regex_search_messageDbPattern, Option.isSome_map']
  constructor
  · intro h
    obtain ⟨st, hst⟩ := Option.isSome_iff_exists.mp h
    exact (matchNodes_messageDbPattern_some r st hst).1
  · rintro ⟨ds, rfl, hmin, hmax, hall⟩
    exact matchNodes_messageDbPattern_isSome ds hmin hmax hall

theorem regex_search_messageDbPattern_some (r : Str) (sm1 : Option (Nat × Nat))
    (h : regex_search r messageDbPattern = some sm1) : subMatch1 r sm1 = r := by
  rw [regex_search_messageDbPattern] at h
  cases hm : matchNodes messageDbPattern ⟨0, r, none, none⟩ with
  | none => rw [hm] at h; exact absurd h (by simp)
  | some st =>
    rw [hm] at h
    simp only [Option.map_some', Option.some.injEq] at h
    have hg := (matchNodes_messageDbPattern_some r st hm).2
    rw [h] at hg
    subst hg
    simp [subMatch1]

theorem MessageDbFilter_opEq_elim (basePath : Str) (s : ITunesFile)
    (h : (MessageDbFilter basePath).opEq s = true) :
    ∃ ds : Str, s.relativePath = (MessageDbFilter basePath).m_path ++
        ("message_".toList ++ ds ++ ".sqlite".toList) ∧
      1 ≤ ds.length ∧ ds.length ≤ 4 ∧ ∀ d ∈ ds, d.isDigit = true := by
  unfold RegexFilterBase.opEq at h
  rw [Bool.and_eq_true, startsWith_iff] at h
  have hpat : (MessageDbFilter basePath).m_pattern = messageDbPattern := rfl
  rw [hpat] at h
  obtain ⟨⟨r, hr⟩, hs⟩ := h
  rw [← hr, List.drop_left, regex_search_messageDbPattern_isSome] at hs
  obtain ⟨ds, rfl, hmin, hmax, hall⟩ := hs
  exact ⟨ds, hr.symm, hmin, hmax, hall⟩

theorem UserFolderFilter_opEq_elim (s : ITunesFile)
    (h : UserFolderFilter.opEq UserFolderFilter s = true) :
    ∃ r : Str, s.relativePath = "Documents/".toList ++ r ∧ r.length = 32 ∧ '/' ∉ r := by
  have hpath : UserFolderFilter.m_path = "Documents/".toList := rfl
  unfold UserFolderFilter.opEq at h
  rw [hpath] at h
  by_cases h1 : (decide (s.relativePath.length ≠ "Documents/".toList.length + 32) ||
      !startsWith s.relativePath "Documents/".toList) = true
  · rw [if_pos h1] at h
    exact absurd h (by simp)
  · rw [if_neg h1] at h
    simp only [Bool.or_eq_true, decide_eq_true_eq, Bool.not_eq_true', not_or, not_not,
      Bool.not_eq_false] at h1
    obtain ⟨hlen, hsw⟩ := h1
    obtain ⟨r, hr⟩ := (startsWith_iff _ _).mp hsw
    refine ⟨r, hr.symm, ?_, ?_⟩
    · rw [← hr, List.length_append] at hlen
      omega
    · intro hmem
      rw [← hr, if_pos ((findChar_past_path _ r '/').mpr hmem)] at h
      exact absurd h (by simp)

/-! ## The pattern filters -/

/-- C3: `MessageDbFilter` matches an entry exactly when its virtual path is the
prefix of the filter, then `message_`, then one to four decimal digits, then
`.sqlite`, and nothing else. -/
theorem MessageDbFilter_opEq_iff (basePath : Str) (s : ITunesFile) :
    (MessageDbFilter basePath).opEq s = true ↔
      ∃ ds : Str, s.relativePath = (MessageDbFilter basePath).m_path ++
          "message_".toList ++ ds ++ ".sqlite".toList ∧
        1 ≤ ds.length ∧ ds.length ≤ 4 ∧ ∀ d ∈ ds, d.isDigit = true := by
  constructor
  · intro h
    obtain ⟨ds, hp, hmin, hmax, hall⟩ := MessageDbFilter_opEq_elim basePath s h
    exact ⟨ds, by rw [hp]; simp, hmin, hmax, hall⟩
  · rintro ⟨ds, hp, hmin, hmax, hall⟩
    unfold RegexFilterBase.opEq
    rw [Bool.and_eq_true, startsWith_iff]
    have hpat : (MessageDbFilter basePath).m_pattern = messageDbPattern := rfl
    rw [hpat]
    have hp2 : s.relativePath = (MessageDbFilter basePath).m_path ++
        ("message_".toList ++ ds ++ ".sqlite".toList) := by rw [hp]; simp
    refine ⟨⟨_, hp2.symm⟩, ?_⟩
    rw [hp2, List.drop_left, regex_search_messageDbPattern_isSome]
    exact ⟨ds, rfl, hmin, hmax, hall⟩

/-- C8: `UserFolderFilter` matches an entry exactly when its virtual path is
`Documents/` followed by exactly 32 characters, none of them a `/`. -/
theorem UserFolderFilter_opEq_iff (s : ITunesFile) :
    UserFolderFilter.opEq UserFolderFilter s = true ↔
      ∃ r : Str, s.relativePath = "Documents/".toList ++ r ∧ r.length = 32 ∧ '/' ∉ r := by
  have hpath : UserFolderFilter.m_path = "Documents/".toList := rfl
  unfold UserFolderFilter.opEq
  rw [hpath]
  constructor
  · intro h
    exact UserFolderFilter_opEq_elim s (by unfold UserFolderFilter.opEq; rw [hpath]; exact h)
  · rintro ⟨r, hr, hlen, hnot⟩
    have hsw : startsWith s.relativePath "Documents/".toList = true :=
      (startsWith_iff _ _).mpr ⟨r, hr.symm⟩
    have hl : s.relativePath.length = "Documents/".toList.length + 32 := by
      rw [hr, List.length_append, hlen]
    have hf : (findChar s.relativePath '/' "Documents/".toList.length).isSome = false := by
      rw [hr, Bool.eq_false_iff]
      exact fun hc => hnot ((findChar_past_path _ r '/').mp hc)
    rw [if_neg (by rw [hsw, hl]; decide), if_neg (by rw [hf]; decide)]

/-- C4: on an entry that it matches, each pattern filter returns from `parse`
the whole remainder of the virtual path after the prefix, so the prefix
followed by the result is the virtual path: for `MessageDbFilter` the shard
file name `message_N.sqlite`, for `UserFolderFilter` the user folder name of
32 characters. -/
theorem pattern_parse_of_opEq (basePath : Str) (s : ITunesFile) :
    ((MessageDbFilter basePath).opEq s = true →
      ∃ ds : Str, ds.length ≤ 4 ∧
        (MessageDbFilter basePath).parse s =
          some ("message_".toList ++ ds ++ ".sqlite".toList) ∧
        (MessageDbFilter basePath).m_path ++ ("message_".toList ++ ds ++ ".sqlite".toList) =
          s.relativePath) ∧
    (UserFolderFilter.opEq UserFolderFilter s = true →
      ∃ r : Str, r.length = 32 ∧ UserFolderFilter.parse UserFolderFilter s = some r ∧
        UserFolderFilter.m_path ++ r = s.relativePath) := by
  constructor
  · intro h
    obtain ⟨ds, hp2, hmin, hmax, hall⟩ := MessageDbFilter_opEq_elim basePath s h
    refine ⟨ds, hmax, ?_, hp2.symm⟩
    have hpat : (MessageDbFilter basePath).m_pattern = messageDbPattern := rfl
    unfold RegexFilterBase.parse
    rw [hpat, hp2, if_pos (by simp), List.drop_left]
    cases hs : regex_search ("message_".toList ++ ds ++ ".sqlite".toList) messageDbPattern with
    | none =>
      have := (regex_search_messageDbPattern_isSome _).mpr ⟨ds, rfl, hmin, hmax, hall⟩
      rw [hs] at this
      exact absurd this (by simp)
    | some sm1 =>
      simp only
      rw [regex_search_messageDbPattern_some _ sm1 hs]
  · intro h
    obtain ⟨r, hr, hlen, _⟩ := UserFolderFilter_opEq_elim s h
    have hpath : UserFolderFilter.m_path = "Documents/".toList := rfl
    refine ⟨r, hlen, ?_, by rw [hpath, hr]⟩
    unfold UserFolderFilter.parse
    rw [hpath, if_pos (by rw [hr, List.length_append, hlen]; decide), hr, substr_past_path]

/-- The pattern filters of C4 on a message shard and on a user folder. -/
theorem pattern_parse_of_opEq_witness :
    ((MessageDbFilter "a".toList).opEq sampleMessageDbFile = true ∧
      UserFolderFilter.opEq UserFolderFilter sampleUserFolder = true) ∧
    (∃ ds : Str, ds.length ≤ 4 ∧
        (MessageDbFilter "a".toList).parse sampleMessageDbFile =
          some ("message_".toList ++ ds ++ ".sqlite".toList) ∧
        (MessageDbFilter "a".toList).m_path ++
            ("message_".toList ++ ds ++ ".sqlite".toList) =
          sampleMessageDbFile.relativePath) ∧
    (∃ r : Str, r.length = 32 ∧
        UserFolderFilter.parse UserFolderFilter sampleUserFolder = some r ∧
        UserFolderFilter.m_path ++ r = sampleUserFolder.relativePath) :=
  ⟨⟨by decide, by decide⟩,
    (pattern_parse_of_opEq "a".toList sampleMessageDbFile).1 (by decide),
    (pattern_parse_of_opEq "a".toList sampleUserFolder).2 (by decide)⟩

/-! ## The result of `parse` for the literal filter -/

/-- C5, as stated, fails: on the path `a/x/celldataV7/y` the filter with prefix
`a/` and pattern `celldataV7` returns the remainder `x/celldataV7/y` from
`parse`, not the portion `celldataV7` that the pattern matched. -/
theorem FilterBase_parse_not_matched_portion :
    sampleCellDataFile.relativePath =
        (SessionCellDataFilter "a/".toList "V7".toList).m_path ++ "x/celldataV7/y".toList ∧
      (SessionCellDataFilter "a/".toList "V7".toList).m_pattern <:+: "x/celldataV7/y".toList ∧
      (SessionCellDataFilter "a/".toList "V7".toList).parse sampleCellDataFile =
        some "x/celldataV7/y".toList ∧
      (SessionCellDataFilter "a/".toList "V7".toList).parse sampleCellDataFile ≠
        some (SessionCellDataFilter "a/".toList "V7".toList).m_pattern := by
  decide

/-- C5, amended: for an entry whose virtual path is the prefix followed by a
suffix that contains the literal pattern, `FilterBase::parse` returns the whole
suffix. -/
theorem FilterBase_parse_eq_suffix (f : FilterBase) (s : ITunesFile) (suffix : Str)
    (hpath : s.relativePath = f.m_path ++ suffix) (hpat : f.m_pattern <:+: suffix) :
    f.parse s = some suffix := by
  have hm : f.opEq s = true := FilterBase_opEq_of_infix f s suffix hpath hpat
  unfold FilterBase.parse
  rw [if_pos hm, hpath, substr_past_path]

/-- The amended C5 on the session cell data filter. -/
theorem FilterBase_parse_eq_suffix_witness :
    sampleCellDataFile.relativePath =
        (SessionCellDataFilter "a/".toList "V7".toList).m_path ++ "x/celldataV7/y".toList ∧
      (SessionCellDataFilter "a/".toList "V7".toList).m_pattern <:+: "x/celldataV7/y".toList ∧
      (SessionCellDataFilter "a/".toList "V7".toList).parse sampleCellDataFile =
        some "x/celldataV7/y".toList :=
  ⟨by decide, by decide,
    FilterBase_parse_eq_suffix (SessionCellDataFilter "a/".toList "V7".toList)
      sampleCellDataFile "x/celldataV7/y".toList (by decide) (by decide)⟩

/-! ## The result of `parse` without a match -/

/-- C6 at its failing inputs: `MessageDbFilter` of the base `a` does not match
`b/DB/message_1.sqlite`, which lies outside its prefix `a/DB/`, and
`UserFolderFilter` does not match `Documents/MMappedKV/mmsetting.archive.abc`,
yet `parse` returns a non-empty string for both. -/
theorem parse_nonempty_without_match :
    (MessageDbFilter "a".toList).opEq ⟨"b/DB/message_1.sqlite".toList, []⟩ = false ∧
    (MessageDbFilter "a".toList).parse ⟨"b/DB/message_1.sqlite".toList, []⟩ =
      some "message_1.sqlite".toList ∧
    UserFolderFilter.opEq UserFolderFilter
      ⟨"Documents/MMappedKV/mmsetting.archive.abc".toList, []⟩ = false ∧
    UserFolderFilter.parse UserFolderFilter
      ⟨"Documents/MMappedKV/mmsetting.archive.abc".toList, []⟩ =
      some "MMappedKV/mmsetting.archive.abc".toList := by
  decide

/-! ## The settings filter -/

/-- C7: `MMSettingInMMappedKVFilter` of a uid (the default constructor being the
empty uid) matches an entry exactly when its virtual path starts with
`Documents/MMappedKV/mmsetting.archive.` followed by the uid and does not end
with `.crc`; so it matches no path of the form `p` followed by `.crc`. -/
theorem MMSetting_opEq_iff (uid : Str) (s : ITunesFile) :
    ((MMSettingInMMappedKVFilter.ofUid uid).opEq s = true ↔
      ("Documents/MMappedKV/mmsetting.archive.".toList ++ uid <+: s.relativePath ∧
        ¬ ".crc".toList <:+ s.relativePath)) ∧
    (MMSettingInMMappedKVFilter.default.opEq s = true ↔
      ("Documents/MMappedKV/mmsetting.archive.".toList <+: s.relativePath ∧
        ¬ ".crc".toList <:+ s.relativePath)) ∧
    MMSettingInMMappedKVFilter.default = MMSettingInMMappedKVFilter.ofUid [] ∧
    ∀ (p fileId : Str),
      (MMSettingInMMappedKVFilter.ofUid uid).opEq ⟨p ++ ".crc".toList, fileId⟩ = false ∧
      MMSettingInMMappedKVFilter.default.opEq ⟨p ++ ".crc".toList, fileId⟩ = false := by
  have key : ∀ (f : MMSettingInMMappedKVFilter) (e : ITunesFile), f.m_suffix = ".crc".toList →
      (f.opEq e = true ↔ (f.m_path <+: e.relativePath ∧ ¬ ".crc".toList <:+ e.relativePath)) := by
    intro f e hf
    unfold MMSettingInMMappedKVFilter.opEq
    rw [Bool.and_eq_true, startsWith_iff, Bool.not_eq_true', ← Bool.not_eq_true, endsWith_iff,
      hf]
  have crc : ∀ (f : MMSettingInMMappedKVFilter) (p fileId : Str), f.m_suffix = ".crc".toList →
      f.opEq ⟨p ++ ".crc".toList, fileId⟩ = false := by
    intro f p fileId hf
    rw [← Bool.not_eq_true, key f _ hf]
    exact fun h => h.2 (List.suffix_append _ _)
  have hpath : (MMSettingInMMappedKVFilter.ofUid uid).m_path =
      "Documents/MMappedKV/mmsetting.archive.".toList ++ uid := by
    simp [MMSettingInMMappedKVFilter.ofUid]
  refine ⟨?_, ?_, ?_, fun p fileId => ⟨crc _ p fileId rfl, crc _ p fileId rfl⟩⟩
  · rw [key _ s rfl, hpath]
  · rw [key _ s rfl]
    rfl
  · simp [MMSettingInMMappedKVFilter.default, MMSettingInMMappedKVFilter.ofUid]


/-! ## Auxiliary facts on the order of paths -/

theorem strCompare_cons_lt {x y : Char} (h : x < y) (a b : Str) :
    strCompare (x :: a) (y :: b) = .lt := by
  simp [strCompare, h]

theorem strCompare_cons_gt {x y : Char} (h : y < x) (a b : Str) :
    strCompare (x :: a) (y :: b) = .gt := by
  simp [strCompare, h, lt_asymm h]

theorem strCompare_cons_self (x : Char) (a b : Str) :
    strCompare (x :: a) (x :: b) = strCompare a b := by
  simp [strCompare]

theorem strCompare_eq_iff (a b : Str) : strCompare a b = .eq ↔ a = b := by
  induction a generalizing b with
  | nil => cases b <;> simp [strCompare]
  | cons x a ih =>
    cases b with
    | nil => simp [strCompare]
    | cons y b =>
      rcases lt_trichotomy x y with h | rfl | h
      · simp [strCompare_cons_lt h, ne_of_lt h]
      · simp [strCompare_cons_self, ih]
      · simp [strCompare_cons_gt h, ne_of_gt h]

theorem strCompare_extension (p t : Str) : strCompare (p ++ t) p ≠ .lt := by
  induction p with
  | nil => cases t <;> simp [strCompare]
  | cons c p ih => simpa [strCompare_cons_self] using ih

/-- With `b` not below `a`, `b` below `p` forces `a` below `p`. -/
theorem strCompare_lt_of_le (a : Str) :
    ∀ b p : Str, strCompare b a ≠ .lt → strCompare b p = .lt → strCompare a p = .lt := by
  induction a with
  | nil =>
    intro b p _ hbp
    cases p with
    | nil => cases b <;> simp [strCompare] at hbp
    | cons c p => simp [strCompare]
  | cons x a ih =>
    intro b p hba hbp
    cases b with
    | nil => simp [strCompare] at hba
    | cons y b =>
      cases p with
      | nil => simp [strCompare] at hbp
      | cons c p =>
        rcases lt_trichotomy y x with hyx | rfl | hxy
        · exact absurd (strCompare_cons_lt hyx b a) hba
        · rw [strCompare_cons_self] at hba
          rcases lt_trichotomy y c with hyc | rfl | hcy
          · exact strCompare_cons_lt hyc a p
          · rw [strCompare_cons_self] at hbp ⊢
            exact ih b p hba hbp
          · rw [strCompare_cons_gt hcy] at hbp
            exact absurd hbp (by simp)
        · rcases lt_trichotomy y c with hyc | rfl | hcy
          · exact strCompare_cons_lt (lt_trans hxy hyc) a p
          · exact strCompare_cons_lt hxy a p
          · rw [strCompare_cons_gt hcy] at hbp
            exact absurd hbp (by simp)

/-- With `b` not below `a`, `a` above `p` and outside of `p` forces the same of `b`. -/
theorem strCompare_gt_of_le (p : Str) :
    ∀ a b : Str, ¬ p <+: a → strCompare a p = .gt → strCompare b a ≠ .lt →
      ¬ p <+: b ∧ strCompare b p = .gt := by
  induction p with
  | nil => intro a b hpa; exact absurd List.nil_prefix hpa
  | cons c p ih =>
    intro a b hpa hap hba
    cases a with
    | nil => simp [strCompare] at hap
    | cons x a =>
      cases b with
      | nil => simp [strCompare] at hba
      | cons y b =>
        rcases lt_trichotomy y x with hyx | rfl | hxy
        · exact absurd (strCompare_cons_lt hyx b a) hba
        · rw [strCompare_cons_self] at hba
          rcases lt_trichotomy y c with hyc | rfl | hcy
          · rw [strCompare_cons_lt hyc] at hap
            exact absurd hap (by simp)
          · rw [strCompare_cons_self] at hap ⊢
            rw [List.cons_prefix_cons] at hpa ⊢
            have := ih a b (fun h => hpa ⟨rfl, h⟩) hap hba
            exact ⟨fun h => this.1 h.2, this.2⟩
          · exact ⟨fun h => ne_of_gt hcy (List.cons_prefix_cons.mp h).1.symm,
              strCompare_cons_gt hcy b p⟩
        · rcases lt_trichotomy x c with hxc | rfl | hcx
          · rw [strCompare_cons_lt hxc] at hap
            exact absurd hap (by simp)
          · exact ⟨fun h => ne_of_gt hxy (List.cons_prefix_cons.mp h).1.symm,
              strCompare_cons_gt hxy b p⟩
          · have hcy := lt_trans hcx hxy
            exact ⟨fun h => ne_of_gt hcy (List.cons_prefix_cons.mp h).1.symm,
              strCompare_cons_gt hcy b p⟩

theorem strLt_eq_true_iff (a b : Str) : strLt a b = true ↔ strCompare a b = .lt := by
  unfold strLt
  cases strCompare a b <;> decide

theorem strLt_eq_false_iff (a b : Str) : strLt a b = false ↔ strCompare a b ≠ .lt := by
  unfold strLt
  cases strCompare a b <;> decide

theorem strGt_eq_true_iff (a b : Str) : strGt a b = true ↔ strCompare a b = .gt := by
  unfold strGt
  cases strCompare a b <;> decide

/-- The predicate "less" of both filter templates, on the prefix and the path. -/
theorem less_iff (p x : Str) :
    (!startsWith x p && strLt x p) = true ↔ strCompare x p = .lt := by
  rw [Bool.and_eq_true, Bool.not_eq_true', startsWith_eq_false_iff, strLt_eq_true_iff]
  constructor
  · exact fun h => h.2
  · intro h
    refine ⟨?_, h⟩
    rintro ⟨t, rfl⟩
    exact strCompare_extension p t h

/-- The predicate "greater" of both filter templates, on the prefix and the path. -/
theorem greater_iff (p x : Str) :
    (!startsWith x p && strGt x p) = true ↔ ¬ p <+: x ∧ strCompare x p = .gt := by
  rw [Bool.and_eq_true, Bool.not_eq_true', startsWith_eq_false_iff, strGt_eq_true_iff]

theorem less_of_le (p a b : Str) (hle : strLt b a = false)
    (hb : (!startsWith b p && strLt b p) = true) : (!startsWith a p && strLt a p) = true := by
  rw [less_iff] at hb ⊢
  exact strCompare_lt_of_le a b p ((strLt_eq_false_iff b a).mp hle) hb

theorem greater_of_le (p a b : Str) (hle : strLt b a = false)
    (ha : (!startsWith a p && strGt a p) = true) : (!startsWith b p && strGt b p) = true := by
  rw [greater_iff] at ha ⊢
  exact strCompare_gt_of_le p a b ha.1 ha.2 ((strLt_eq_false_iff b a).mp hle)

/-- Exactly one of "less", "greater" and "starts with the prefix" holds. -/
theorem less_greater_or_under (p x : Str) :
    ((!startsWith x p && strLt x p) = true ∧ ¬ (!startsWith x p && strGt x p) = true ∧
        ¬ p <+: x) ∨
    (¬ (!startsWith x p && strLt x p) = true ∧ (!startsWith x p && strGt x p) = true ∧
        ¬ p <+: x) ∨
    (¬ (!startsWith x p && strLt x p) = true ∧ ¬ (!startsWith x p && strGt x p) = true ∧
        p <+: x) := by
  rw [less_iff, greater_iff]
  by_cases hp : p <+: x
  · right; right
    refine ⟨?_, fun h => h.1 hp, hp⟩
    obtain ⟨t, rfl⟩ := hp
    exact strCompare_extension p t
  · cases h : strCompare x p with
    | lt => exact Or.inl ⟨rfl, fun h2 => by simp at h2, hp⟩
    | gt => exact Or.inr (Or.inl ⟨by simp, ⟨hp, rfl⟩, hp⟩)
    | eq =>
      rw [strCompare_eq_iff] at h
      exact absurd (h ▸ List.prefix_refl p) hp

/-- A list of entries in ascending order of the paths splits into the entries
"less" than the prefix, those under the prefix and those "greater". -/
theorem sorted_split (p : Str) (idx : List ITunesFile)
    (hsorted : idx.Pairwise fun a b => strLt b.relativePath a.relativePath = false) :
    ∃ lo mid hi : List ITunesFile, idx = lo ++ mid ++ hi ∧
      (∀ s ∈ lo, (!startsWith s.relativePath p && strLt s.relativePath p) = true) ∧
      (∀ s ∈ mid, p <+: s.relativePath) ∧
      (∀ s ∈ hi, (!startsWith s.relativePath p && strGt s.relativePath p) = true) := by
  induction idx with
  | nil => exact ⟨[], [], [], rfl, by simp, by simp, by simp⟩
  | cons a rest ih =>
    rw [List.pairwise_cons] at hsorted
    obtain ⟨hle, hrest⟩ := hsorted
    obtain ⟨lo, mid, hi, hsplit, hlo, hmid, hhi⟩ := ih hrest
    rcases less_greater_or_under p a.relativePath with ⟨hl, _, _⟩ | ⟨hnl, hg, hnp⟩ | ⟨hnl, _, hp⟩
    · refine ⟨a :: lo, mid, hi, by simp [hsplit], ?_, hmid, hhi⟩
      intro s hs
      rcases List.mem_cons.mp hs with rfl | hs
      · exact hl
      · exact hlo s hs
    · have hall : ∀ s ∈ rest,
          (!startsWith s.relativePath p && strGt s.relativePath p) = true :=
        fun s hs => greater_of_le p _ _ (hle s hs) hg
      refine ⟨[], [], a :: rest, by simp, by simp, by simp, ?_⟩
      intro s hs
      rcases List.mem_cons.mp hs with rfl | hs
      · exact hg
      · exact hall s hs
    · have hlo_nil : lo = [] := by
        cases lo with
        | nil => rfl
        | cons s lo =>
          have hs : s ∈ rest := by rw [hsplit]; simp
          exact absurd (less_of_le p _ _ (hle s hs) (hlo s (List.mem_cons_self _ _))) hnl
      subst hlo_nil
      refine ⟨[], a :: mid, hi, by simp [hsplit], by simp, ?_, hhi⟩
      intro s hs
      rcases List.mem_cons.mp hs with rfl | hs
      · exact hp
      · exact hmid s hs

/-- In an index in ascending order of the paths, the entries "less" than the
prefix, the entries under the prefix and the entries "greater" are three
consecutive runs, in this order, that make up the index. -/
theorem sorted_filter_split (p : Str) (idx : List ITunesFile)
    (hsorted : idx.Pairwise fun a b => strLt b.relativePath a.relativePath = false) :
    idx = idx.filter (fun s => !startsWith s.relativePath p && strLt s.relativePath p) ++
      idx.filter (fun s => startsWith s.relativePath p) ++
      idx.filter (fun s => !startsWith s.relativePath p && strGt s.relativePath p) := by
  obtain ⟨lo, mid, hi, hsplit, hlo, hmid, hhi⟩ := sorted_split p idx hsorted
  have excl : ∀ s : ITunesFile,
      ((!startsWith s.relativePath p && strLt s.relativePath p) = true →
        startsWith s.relativePath p = false ∧
        (!startsWith s.relativePath p && strGt s.relativePath p) = false) ∧
      (p <+: s.relativePath →
        (!startsWith s.relativePath p && strLt s.relativePath p) = false ∧
        (!startsWith s.relativePath p && strGt s.relativePath p) = false) ∧
      ((!startsWith s.relativePath p && strGt s.relativePath p) = true →
        startsWith s.relativePath p = false ∧
        (!startsWith s.relativePath p && strLt s.relativePath p) = false) := by
    intro s
    rcases less_greater_or_under p s.relativePath with ⟨hl, hg, hp⟩ | ⟨hl, hg, hp⟩ | ⟨hl, hg, hp⟩
    · refine ⟨fun _ => ⟨(startsWith_eq_false_iff _ _).mpr hp, Bool.not_eq_true _ ▸ hg⟩,
        fun h => absurd h hp, fun h => absurd h hg⟩
    · refine ⟨fun h => absurd h hl, fun h => absurd h hp,
        fun _ => ⟨(startsWith_eq_false_iff _ _).mpr hp, Bool.not_eq_true _ ▸ hl⟩⟩
    · refine ⟨fun h => absurd h hl,
        fun _ => ⟨Bool.not_eq_true _ ▸ hl, Bool.not_eq_true _ ▸ hg⟩, fun h => absurd h hg⟩
  have f1 : (lo ++ mid ++ hi).filter
      (fun s => !startsWith s.relativePath p && strLt s.relativePath p) = lo := by
    rw [List.filter_append, List.filter_append, List.filter_eq_self.mpr hlo,
      List.filter_eq_nil_iff.mpr (fun s hs => by
        rw [((excl s).2.1 (hmid s hs)).1]; exact Bool.false_ne_true),
      List.filter_eq_nil_iff.mpr (fun s hs => by
        rw [((excl s).2.2 (hhi s hs)).2]; exact Bool.false_ne_true)]
    simp
  have f2 : (lo ++ mid ++ hi).filter (fun s => startsWith s.relativePath p) = mid := by
    rw [List.filter_append, List.filter_append,
      List.filter_eq_nil_iff.mpr (fun s hs => by
        rw [((excl s).1 (hlo s hs)).1]; exact Bool.false_ne_true),
      List.filter_eq_self.mpr (fun s hs => (startsWith_iff _ _).mpr (hmid s hs)),
      List.filter_eq_nil_iff.mpr (fun s hs => by
        rw [((excl s).2.2 (hhi s hs)).1]; exact Bool.false_ne_true)]
    simp
  have f3 : (lo ++ mid ++ hi).filter
      (fun s => !startsWith s.relativePath p && strGt s.relativePath p) = hi := by
    rw [List.filter_append, List.filter_append,
      List.filter_eq_nil_iff.mpr (fun s hs => by
        rw [((excl s).1 (hlo s hs)).2]; exact Bool.false_ne_true),
      List.filter_eq_nil_iff.mpr (fun s hs => by
        rw [((excl s).2.1 (hmid s hs)).2]; exact Bool.false_ne_true),
      List.filter_eq_self.mpr hhi]
    simp
  rw [hsplit, f1, f2, f3]

/-- In an index in ascending order of the paths, no entry under the prefix comes
before a "less" entry and no "greater" entry comes before an entry under the
prefix or a "less" entry. -/
theorem sorted_precedence (p : Str) (idx : List ITunesFile)
    (hsorted : idx.Pairwise fun a b => strLt b.relativePath a.relativePath = false) :
    idx.Pairwise fun a b =>
      (p <+: a.relativePath →
        (!startsWith b.relativePath p && strLt b.relativePath p) = false) ∧
      ((!startsWith a.relativePath p && strGt a.relativePath p) = true →
        ¬ p <+: b.relativePath ∧
        (!startsWith b.relativePath p && strLt b.relativePath p) = false) := by
  refine hsorted.imp ?_
  intro a b hle
  constructor
  · intro hpa
    rw [← Bool.not_eq_true]
    intro hlb
    have hla := less_of_le p _ _ hle hlb
    rw [Bool.and_eq_true, Bool.not_eq_true', startsWith_eq_false_iff] at hla
    exact hla.1 hpa
  · intro hga
    have hgb := greater_of_le p _ _ hle hga
    rcases less_greater_or_under p b.relativePath with ⟨_, hg, _⟩ | ⟨hl, _, hp⟩ | ⟨_, hg, _⟩
    · exact absurd hgb hg
    · exact ⟨hp, Bool.not_eq_true _ ▸ hl⟩
    · exact absurd hgb hg

/-! ## The ordering predicates -/

/-- C9: on an index in ascending order of the virtual paths, the ordering
predicates of both filter templates bound a contiguous range: the index is
its entries that satisfy "less", followed by its entries whose path starts with
the prefix, followed by its entries that satisfy "greater", so in the index no
entry under the prefix comes before a "less" entry and no "greater" entry comes
before an entry under the prefix or a "less" entry.  Also, for `a <= b`, "less"
of `b` gives "less" of `a`, and "greater" of `a` gives "greater" of `b`. -/
theorem less_greater_bound_range (f : FilterBase) (g : RegexFilterBase)
    (idx : List ITunesFile)
    (hsorted : idx.Pairwise fun a b => strLt b.relativePath a.relativePath = false) :
    (idx = idx.filter f.less ++ idx.filter (fun s => startsWith s.relativePath f.m_path) ++
        idx.filter f.greater ∧
      idx.Pairwise fun a b =>
        (f.m_path <+: a.relativePath → f.less b = false) ∧
        (f.greater a = true → ¬ f.m_path <+: b.relativePath ∧ f.less b = false)) ∧
    (idx = idx.filter g.less ++ idx.filter (fun s => startsWith s.relativePath g.m_path) ++
        idx.filter g.greater ∧
      idx.Pairwise fun a b =>
        (g.m_path <+: a.relativePath → g.less b = false) ∧
        (g.greater a = true → ¬ g.m_path <+: b.relativePath ∧ g.less b = false)) ∧
    (∀ a b : ITunesFile, strLt b.relativePath a.relativePath = false →
      (f.less b = true → f.less a = true) ∧ (f.greater a = true → f.greater b = true) ∧
      (g.less b = true → g.less a = true) ∧ (g.greater a = true → g.greater b = true)) := by
  refine ⟨⟨?_, ?_⟩, ⟨?_, ?_⟩, ?_⟩
  · exact sorted_filter_split f.m_path idx hsorted
  · exact sorted_precedence f.m_path idx hsorted
  · exact sorted_filter_split g.m_path idx hsorted
  · exact sorted_precedence g.m_path idx hsorted
  · intro a b hle
    exact ⟨less_of_le f.m_path _ _ hle, greater_of_le f.m_path _ _ hle,
      less_of_le g.m_path _ _ hle, greater_of_le g.m_path _ _ hle⟩

/-- The range of C9 for the prefix `Documents/` in an index of five entries:
one entry is "less", two are under the prefix, two are "greater". -/
theorem less_greater_bound_range_witness :
    (sampleIndex.Pairwise fun a b => strLt b.relativePath a.relativePath = false) ∧
    (sampleIndex.filter (SessionCellDataFilter "Documents/".toList "V7".toList).less =
        [⟨"Documents".toList, []⟩] ∧
      sampleIndex.filter (fun s => startsWith s.relativePath
          (SessionCellDataFilter "Documents/".toList "V7".toList).m_path) =
        [⟨"Documents/a".toList, []⟩, ⟨"Documents/b/c".toList, []⟩] ∧
      sampleIndex.filter (SessionCellDataFilter "Documents/".toList "V7".toList).greater =
        [⟨"Documents0".toList, []⟩, ⟨"Library/x".toList, []⟩]) ∧
    (sampleIndex =
        sampleIndex.filter (SessionCellDataFilter "Documents/".toList "V7".toList).less ++
        sampleIndex.filter (fun s => startsWith s.relativePath
          (SessionCellDataFilter "Documents/".toList "V7".toList).m_path) ++
        sampleIndex.filter (SessionCellDataFilter "Documents/".toList "V7".toList).greater ∧
      sampleIndex.Pairwise fun a b =>
        ((SessionCellDataFilter "Documents/".toList "V7".toList).m_path <+: a.relativePath →
          (SessionCellDataFilter "Documents/".toList "V7".toList).less b = false) ∧
        ((SessionCellDataFilter "Documents/".toList "V7".toList).greater a = true →
          ¬ (SessionCellDataFilter "Documents/".toList "V7".toList).m_path <+:
              b.relativePath ∧
            (SessionCellDataFilter "Documents/".toList "V7".toList).less b = false)) :=
  have h := less_greater_bound_range (SessionCellDataFilter "Documents/".toList "V7".toList)
    UserFolderFilter sampleIndex (by decide)
  ⟨by decide, by decide, h.1⟩

/-- C10: for each filter template and each entry, exactly one of three holds:
"less" is true, "greater" is true, or the virtual path starts with the prefix.
So "less" and "greater" are never both true, and both are false on every entry
that the filter matches. -/
theorem less_greater_prefix_exactly_one (f : FilterBase) (g : RegexFilterBase)
    (s : ITunesFile) :
    ((f.less s = true ∧ ¬ f.greater s = true ∧ ¬ f.m_path <+: s.relativePath) ∨
      (¬ f.less s = true ∧ f.greater s = true ∧ ¬ f.m_path <+: s.relativePath) ∨
      (¬ f.less s = true ∧ ¬ f.greater s = true ∧ f.m_path <+: s.relativePath)) ∧
    ((g.less s = true ∧ ¬ g.greater s = true ∧ ¬ g.m_path <+: s.relativePath) ∨
      (¬ g.less s = true ∧ g.greater s = true ∧ ¬ g.m_path <+: s.relativePath) ∨
      (¬ g.less s = true ∧ ¬ g.greater s = true ∧ g.m_path <+: s.relativePath)) ∧
    (f.opEq s = true → f.less s = false ∧ f.greater s = false) ∧
    (g.opEq s = true → g.less s = false ∧ g.greater s = false) := by
  refine ⟨less_greater_or_under f.m_path s.relativePath,
    less_greater_or_under g.m_path s.relativePath, ?_, ?_⟩
  · intro h
    unfold FilterBase.opEq at h
    rw [Bool.and_eq_true] at h
    simp [FilterBase.less, FilterBase.greater, h.1]
  · intro h
    unfold RegexFilterBase.opEq at h
    rw [Bool.and_eq_true] at h
    simp [RegexFilterBase.less, RegexFilterBase.greater, h.1]

/-- The predicates of C10 on two entries that the filters match. -/
theorem less_greater_prefix_exactly_one_witness :
    ((SessionCellDataFilter "a/".toList "V7".toList).opEq sampleCellDataFile = true ∧
      (SessionCellDataFilter "a/".toList "V7".toList).less sampleCellDataFile = false ∧
      (SessionCellDataFilter "a/".toList "V7".toList).greater sampleCellDataFile = false) ∧
    ((MessageDbFilter "a".toList).opEq sampleMessageDbFile = true ∧
      (MessageDbFilter "a".toList).less sampleMessageDbFile = false ∧
      (MessageDbFilter "a".toList).greater sampleMessageDbFile = false) :=
  ⟨⟨by decide,
      (less_greater_prefix_exactly_one (SessionCellDataFilter "a/".toList "V7".toList)
        (MessageDbFilter "a".toList) sampleCellDataFile).2.2.1 (by decide)⟩,
    ⟨by decide,
      (less_greater_prefix_exactly_one (SessionCellDataFilter "a/".toList "V7".toList)
        (MessageDbFilter "a".toList) sampleMessageDbFile).2.2.2 (by decide)⟩⟩

/-! ## The view and the encrypted backup -/

/-- C11: with an encrypted backup manifest selected, `OnBackupSelChange` loads
no users or sessions (`m_usersAndSessions` is empty afterwards, the export core
is not called) and `OnBnClickedExport` creates and runs no `Exporter`: the
member `m_exporter` is as before, `NULL` when it was `NULL`, and the export
core is not called. -/
theorem encrypted_backup_rejected (env : Env) (v : CView) (manifest : BackupManifest)
    (hsel : v.selectedManifest = some manifest) (henc : manifest.encrypted = true) :
    (∃ v1, v.OnBackupSelChange env = some v1 ∧ v1.m_usersAndSessions = [] ∧
      v1.coreLog = v.coreLog ∧ v1.m_exporter = v.m_exporter) ∧
    (∃ v2, v.OnBnClickedExport env = some v2 ∧ v2.m_exporter = v.m_exporter ∧
      v2.coreLog = v.coreLog ∧ (v.m_exporter = none → v2.m_exporter = none)) := by
  have hcur : v.backupCurSel ≠ -1 := by
    intro h
    unfold CView.selectedManifest at hsel
    rw [h] at hsel
    simp at hsel
  constructor
  · have hsel1 : CView.selectedManifest
        { v with userItems := [], userCurSel := -1, m_usersAndSessions := [] } =
        some manifest := hsel
    unfold CView.OnBackupSelChange
    simp only [hcur, if_false, hsel1, henc, if_true]
    exact ⟨_, rfl, rfl, rfl, rfl⟩
  · unfold CView.OnBnClickedExport
    cases hex : v.m_exporter with
    | some e => exact ⟨v, by simp, hex, rfl, fun h => by simp at h⟩
    | none =>
      simp only [Option.isSome_none, Bool.false_eq_true, if_false, hcur, hsel, henc, if_true]
      exact ⟨_, rfl, hex, rfl, fun _ => hex⟩

/-- The handlers of C11 on a view with the encrypted backup selected. -/
theorem encrypted_backup_rejected_witness :
    (sampleEncryptedView.selectedManifest = some sampleEncryptedBackup ∧
      sampleEncryptedBackup.encrypted = true) ∧
    (∃ v1, sampleEncryptedView.OnBackupSelChange sampleEnv = some v1 ∧
      v1.m_usersAndSessions = [] ∧ v1.coreLog = sampleEncryptedView.coreLog ∧
      v1.m_exporter = sampleEncryptedView.m_exporter) ∧
    (∃ v2, sampleEncryptedView.OnBnClickedExport sampleEnv = some v2 ∧
      v2.m_exporter = sampleEncryptedView.m_exporter ∧
      v2.coreLog = sampleEncryptedView.coreLog ∧
      (sampleEncryptedView.m_exporter = none → v2.m_exporter = none)) :=
  ⟨⟨by decide, by decide⟩,
    encrypted_backup_rejected sampleEnv sampleEncryptedView sampleEncryptedBackup
      (by decide) (by decide)⟩

/-! ## The selection computed by `UpdateBackups` -/

/-- C16 at its failing inputs: for a first manifest that is already present at
the offset 2 of `m_manifests`, `UpdateBackups` computes the selection index -2,
which is no index into `m_manifests`; for a first manifest present at the
offset 1 it computes -1, the value that stands for "not yet chosen", and a later
manifest that is appended at the offset 2 takes the selection.  A manifest
that is newly appended, or present at the offset 0, gets its position. -/
theorem UpdateBackups_selection_negated :
    updateBackupsLoop [sampleThirdBackup]
        [samplePlainBackup, sampleEncryptedBackup, sampleThirdBackup] (-1) =
      ([samplePlainBackup, sampleEncryptedBackup, sampleThirdBackup], -2) ∧
    (CView.UpdateBackups
        { samplePlainView with
          m_manifests := [samplePlainBackup, sampleEncryptedBackup, sampleThirdBackup] }
        [sampleThirdBackup]).2 = -2 ∧
    (CView.UpdateBackups samplePlainView [sampleEncryptedBackup, sampleThirdBackup]).2 = 2 ∧
    (CView.UpdateBackups samplePlainView
        [sampleEncryptedBackup, sampleThirdBackup]).1.m_manifests.get? 2 =
      some sampleThirdBackup ∧
    (CView.UpdateBackups samplePlainView [sampleThirdBackup]).2 = 2 ∧
    (CView.UpdateBackups samplePlainView [samplePlainBackup]).2 = 0 := by
  decide

/-! ## The start of the search in `RegexFilterBase::parse` -/

/-- C17 at its failing input: for `MessageDbFilter` of the base `a` the prefix
`a/DB/` has 5 characters, the path `b` has 1, and `parse` starts its search at
`begin() + 5`, beyond the end of the path. -/
theorem RegexFilterBase_parse_start_beyond_end :
    (MessageDbFilter "a".toList).m_path.length = 5 ∧
    (⟨"b".toList, []⟩ : ITunesFile).relativePath.length = 1 ∧
    (MessageDbFilter "a".toList).parse ⟨"b".toList, []⟩ = none ∧
    UserFolderFilter.m_path.length = 10 ∧
    RegexFilterBase.parse UserFolderFilter ⟨"Doc".toList, []⟩ = none := by
  decide

/-! ## The export state machine of the view -/

/-- C19 at its failing input: in an idle view with a plain backup selected, a
press of Export whose `Exporter::run` returns false leaves `m_exporter`
non-`NULL` while the interactive controls stay enabled, and the next press of
Export returns at once with the view unchanged, whatever `run` would return. -/
theorem export_run_failure_keeps_exporter :
    samplePlainView.m_exporter = none ∧ samplePlainView.IsUIEnabled = true ∧
    (samplePlainView.OnBnClickedExport sampleEnvRunFails).map
        (fun v => (v.IsUIEnabled, v.m_exporter.isSome)) = some (true, true) ∧
    (samplePlainView.OnBnClickedExport sampleEnvRunFails).bind
        (fun v => v.OnBnClickedExport sampleEnv) =
      samplePlainView.OnBnClickedExport sampleEnvRunFails ∧
    (samplePlainView.OnBnClickedExport sampleEnv).map
        (fun v => (v.IsUIEnabled, v.m_exporter.isSome)) = some (false, true) ∧
    ((samplePlainView.OnBnClickedExport sampleEnv).map
        (fun v => (v.OnComplete.IsUIEnabled, v.OnComplete.m_exporter.isSome))) =
      some (true, false) := by
  decide

/-! ## The settings filter: the result of `parse` -/

/-- C20: on an entry that `MMSettingInMMappedKVFilter` of a uid matches, `parse`
returns the file name relative to `Documents/MMappedKV/`, so that directory
followed by the result is the virtual path, and the result begins with
`getPrefix()`, which is `mmsetting.archive.`, followed by the uid. -/
theorem MMSetting_parse_of_opEq (uid : Str) (s : ITunesFile)
    (h : (MMSettingInMMappedKVFilter.ofUid uid).opEq s = true) :
    ∃ r : Str, (MMSettingInMMappedKVFilter.ofUid uid).parse s = some r ∧
      "Documents/MMappedKV/".toList ++ r = s.relativePath ∧
      (MMSettingInMMappedKVFilter.ofUid uid).getPrefix ++ uid <+: r ∧
      (MMSettingInMMappedKVFilter.ofUid uid).getPrefix = "mmsetting.archive.".toList := by
  have hpat : (MMSettingInMMappedKVFilter.ofUid uid).m_pattern =
      "Documents/MMappedKV/".toList := rfl
  have hpath : (MMSettingInMMappedKVFilter.ofUid uid).m_path =
      "Documents/MMappedKV/".toList ++ ("mmsetting.archive.".toList ++ uid) := by
    simp [MMSettingInMMappedKVFilter.ofUid]
  have hsw : (MMSettingInMMappedKVFilter.ofUid uid).m_path <+: s.relativePath := by
    unfold MMSettingInMMappedKVFilter.opEq at h
    rw [Bool.and_eq_true] at h
    exact (startsWith_iff _ _).mp h.1
  obtain ⟨t, ht⟩ := hsw
  rw [hpath, List.append_assoc] at ht
  refine ⟨"mmsetting.archive.".toList ++ uid ++ t, ?_, ?_, ?_, rfl⟩
  · unfold MMSettingInMMappedKVFilter.parse
    rw [if_pos h, hpat, ← ht, substr_past_path]
  · rw [← ht]
  · exact ⟨t, rfl⟩

/-- The settings filter of C20 on the archive of the uid `abc`. -/
theorem MMSetting_parse_of_opEq_witness :
    (MMSettingInMMappedKVFilter.ofUid "abc".toList).opEq
        ⟨"Documents/MMappedKV/mmsetting.archive.abc_1".toList, []⟩ = true ∧
    ∃ r : Str, (MMSettingInMMappedKVFilter.ofUid "abc".toList).parse
        ⟨"Documents/MMappedKV/mmsetting.archive.abc_1".toList, []⟩ = some r ∧
      "Documents/MMappedKV/".toList ++ r =
        "Documents/MMappedKV/mmsetting.archive.abc_1".toList ∧
      (MMSettingInMMappedKVFilter.ofUid "abc".toList).getPrefix ++ "abc".toList <+: r ∧
      (MMSettingInMMappedKVFilter.ofUid "abc".toList).getPrefix =
        "mmsetting.archive.".toList :=
  ⟨by decide,
    MMSetting_parse_of_opEq "abc".toList
      ⟨"Documents/MMappedKV/mmsetting.archive.abc_1".toList, []⟩ (by decide)⟩

/-! ## The prefix of `MessageDbFilter` -/

theorem replace_append (a b : Str) (old new : Char) :
    replace (a ++ b) old new = replace a old new ++ replace b old new := by
  unfold replace
  exact List.map_append _ _ _

theorem not_mem_replace (s : Str) (old new : Char) (h : new ≠ old) :
    old ∉ replace s old new := by
  unfold replace
  intro hmem
  obtain ⟨c, _, hc⟩ := List.mem_map.mp hmem
  by_cases hco : c = old
  · rw [if_pos hco] at hc
    exact h hc
  · rw [if_neg hco] at hc
    exact hco hc

theorem endsWith_slash_replace (base : Str)
    (h : endsWith (replace base '\\' '/') "/".toList = true) :
    "/".toList <:+ base ∨ "\\".toList <:+ base := by
  rw [endsWith_iff] at h
  obtain ⟨t, ht⟩ := h
  unfold replace at ht
  obtain ⟨l1, l2, hb, _, h2⟩ := List.append_eq_map_iff.mp ht
  cases l2 with
  | nil => simp at h2
  | cons c l2 =>
    cases l2 with
    | cons d l2 => simp at h2
    | nil =>
      have hc : (if c = '\\' then '/' else c) = '/' := by simpa using h2
      by_cases hcb : c = '\\'
      · right
        exact ⟨l1, by rw [hb, hcb]; rfl⟩
      · rw [if_neg hcb] at hc
        left
        exact ⟨l1, by rw [hb, hc]; rfl⟩

theorem MessageDbFilter_path_of_sep (base : Str) (sep : Char)
    (hsep : (if sep = '\\' then '/' else sep) = '/') :
    (MessageDbFilter (base ++ [sep])).m_path =
      replace base '\\' '/' ++ "/".toList ++ "DB/".toList := by
  have hrep : replace (base ++ [sep]) '\\' '/' = replace base '\\' '/' ++ "/".toList := by
    rw [replace_append]
    show _ ++ [if sep = '\\' then '/' else sep] = _
    rw [hsep]
    rfl
  have hends : endsWith (replace (base ++ [sep]) '\\' '/') "/".toList = true := by
    rw [hrep, endsWith_iff]
    exact List.suffix_append _ _
  unfold MessageDbFilter
  simp only [hends, Bool.not_true, Bool.false_eq_true, if_false]
  rw [hrep]

/-- C15: the prefix that `MessageDbFilter` computes from a base path contains no
backslash and ends with `/DB/`; for a base path that does not end in a
separator it is the same for the base path, the base path followed by `/` and
the base path followed by a backslash. -/
theorem MessageDbFilter_path_normalized (basePath : Str) :
    '\\' ∉ (MessageDbFilter basePath).m_path ∧
    "/DB/".toList <:+ (MessageDbFilter basePath).m_path ∧
    (¬ "/".toList <:+ basePath → ¬ "\\".toList <:+ basePath →
      (MessageDbFilter (basePath ++ "/".toList)).m_path = (MessageDbFilter basePath).m_path ∧
      (MessageDbFilter (basePath ++ "\\".toList)).m_path =
        (MessageDbFilter basePath).m_path) := by
  have hno : '\\' ∉ replace basePath '\\' '/' := not_mem_replace basePath '\\' '/' (by decide)
  by_cases hends : endsWith (replace basePath '\\' '/') "/".toList = true
  · have hpath : (MessageDbFilter basePath).m_path =
        replace basePath '\\' '/' ++ "DB/".toList := by
      unfold MessageDbFilter
      simp only [hends, Bool.not_true, Bool.false_eq_true, if_false]
    refine ⟨?_, ?_, ?_⟩
    · rw [hpath, List.mem_append]
      rintro (h | h)
      · exact hno h
      · exact absurd h (by decide)
    · rw [hpath]
      obtain ⟨t, ht⟩ := (endsWith_iff _ _).mp hends
      exact ⟨t, by rw [← ht, List.append_assoc]; rfl⟩
    · intro h1 h2
      rcases endsWith_slash_replace basePath hends with h | h
      · exact absurd h h1
      · exact absurd h h2
  · have hpath : (MessageDbFilter basePath).m_path =
        replace basePath '\\' '/' ++ "/".toList ++ "DB/".toList := by
      have hfalse : endsWith (replace basePath '\\' '/') "/".toList = false := by
        simpa using hends
      unfold MessageDbFilter
      simp only [hfalse, Bool.not_false, if_true]
    refine ⟨?_, ?_, ?_⟩
    · rw [hpath, List.mem_append, List.mem_append]
      rintro ((h | h) | h)
      · exact hno h
      · exact absurd h (by decide)
      · exact absurd h (by decide)
    · rw [hpath]
      exact ⟨replace basePath '\\' '/', by rw [List.append_assoc]; rfl⟩
    · intro _ _
      rw [hpath]
      exact ⟨MessageDbFilter_path_of_sep basePath '/' (by decide),
        MessageDbFilter_path_of_sep basePath '\\' (by decide)⟩

/-- The prefix of C15 for the base path `Documents\ab`. -/
theorem MessageDbFilter_path_normalized_witness :
    (¬ "/".toList <:+ "Documents\\ab".toList ∧ ¬ "\\".toList <:+ "Documents\\ab".toList) ∧
    (MessageDbFilter "Documents\\ab".toList).m_path = "Documents/ab/DB/".toList ∧
    (MessageDbFilter ("Documents\\ab".toList ++ "/".toList)).m_path =
      (MessageDbFilter "Documents\\ab".toList).m_path ∧
    (MessageDbFilter ("Documents\\ab".toList ++ "\\".toList)).m_path =
      (MessageDbFilter "Documents\\ab".toList).m_path :=
  ⟨⟨by decide, by decide⟩, by decide,
    (MessageDbFilter_path_normalized "Documents\\ab".toList).2.2 (by decide) (by decide)⟩

/-! ## The option setters of `SessionParser` -/

theorem testBit_one_shiftLeft (n i : Nat) :
    Int.testBit (1 <<< (n : Int)) i = decide (n = i) := by
  rw [Int.one_shiftLeft]
  show Nat.testBit (2 ^ n) i = _
  exact Nat.testBit_two_pow

theorem testBit_SPO_DESC (i : Nat) : SPO_DESC.testBit i = decide (16 = i) :=
  testBit_one_shiftLeft 16 i

theorem testBit_SPO_IGNORE_AUDIO (i : Nat) : SPO_IGNORE_AUDIO.testBit i = decide (1 = i) :=
  testBit_one_shiftLeft 1 i

theorem testBit_setOrder (p : SessionParser) (asc : Bool) (i : Nat) :
    (p.setOrder asc).m_options.testBit i =
      if i = 16 then !asc else p.m_options.testBit i := by
  unfold SessionParser.setOrder
  cases asc
  · simp only [Bool.false_eq_true, if_false, Int.testBit_lor, testBit_SPO_DESC]
    by_cases h : i = 16
    · simp [h]
    · simp [h, Ne.symm h]
  · simp only [if_true, Int.testBit_land, Int.testBit_lnot, testBit_SPO_DESC]
    by_cases h : i = 16
    · simp [h]
    · simp [h, Ne.symm h]

theorem testBit_ignoreAudio (p : SessionParser) (b : Bool) (i : Nat) :
    (p.ignoreAudio b).m_options.testBit i =
      if i = 1 then b else p.m_options.testBit i := by
  unfold SessionParser.ignoreAudio
  cases b
  · simp only [Bool.false_eq_true, if_false, Int.testBit_land, Int.testBit_lnot,
      testBit_SPO_IGNORE_AUDIO]
    by_cases h : i = 1
    · simp [h]
    · simp [h, Ne.symm h]
  · simp only [if_true, Int.testBit_lor, testBit_SPO_IGNORE_AUDIO]
    by_cases h : i = 1
    · simp [h]
    · simp [h, Ne.symm h]

/-- C14: the option setters change exactly their own flag.  `SPO_DESC` is bit 16
and `SPO_IGNORE_AUDIO` is bit 1 of the option word; after `setOrder(b)` bit 16
is set exactly when `b` is false, after `ignoreAudio(b)` bit 1 is set exactly
when `b` is true, and every other bit of `m_options` is as before. -/
theorem option_setters_change_own_flag (p : SessionParser) (b : Bool) :
    (∀ i : Nat, SPO_DESC.testBit i = decide (16 = i)) ∧
    (∀ i : Nat, SPO_IGNORE_AUDIO.testBit i = decide (1 = i)) ∧
    ((p.setOrder b).m_options.testBit 16 = true ↔ b = false) ∧
    (∀ i : Nat, i ≠ 16 → (p.setOrder b).m_options.testBit i = p.m_options.testBit i) ∧
    ((p.ignoreAudio b).m_options.testBit 1 = true ↔ b = true) ∧
    (∀ i : Nat, i ≠ 1 → (p.ignoreAudio b).m_options.testBit i = p.m_options.testBit i) := by
  refine ⟨testBit_SPO_DESC, testBit_SPO_IGNORE_AUDIO, ?_, ?_, ?_, ?_⟩
  · rw [testBit_setOrder]
    cases b <;> simp
  · intro i hi
    rw [testBit_setOrder, if_neg hi]
  · rw [testBit_ignoreAudio]
    simp
  · intro i hi
    rw [testBit_ignoreAudio, if_neg hi]

/-- The setters of C14 on the option word `SPO_IGNORE_IMAGE`: bit 2 stays set. -/
theorem option_setters_change_own_flag_witness :
    ((⟨SPO_IGNORE_IMAGE⟩ : SessionParser).setOrder false).m_options.testBit 2 =
        SPO_IGNORE_IMAGE.testBit 2 ∧
    ((⟨SPO_IGNORE_IMAGE⟩ : SessionParser).ignoreAudio true).m_options.testBit 2 =
        SPO_IGNORE_IMAGE.testBit 2 :=
  ⟨(option_setters_change_own_flag ⟨SPO_IGNORE_IMAGE⟩ false).2.2.2.1 2 (by decide),
    (option_setters_change_own_flag ⟨SPO_IGNORE_IMAGE⟩ true).2.2.2.2.2 2 (by decide)⟩

/-! ## Auxiliary facts on the ordered containers -/

theorem StdMap.find_nil {V : Type} (k1 : Str) : StdMap.find ([] : StdMap V) k1 = none := rfl

theorem StdMap.find_cons {V : Type} (k1 k2 : Str) (v2 : V) (rest : StdMap V) :
    StdMap.find ((k2, v2) :: rest) k1 = if k1 = k2 then some v2 else StdMap.find rest k1 := by
  unfold StdMap.find
  by_cases h : k1 = k2
  · subst h
    simp [List.lookup]
  · have hb : (k1 == k2) = false := beq_eq_false_iff_ne.mpr h
    rw [if_neg h]
    simp only [List.lookup, hb]

theorem StdMap.find_insertNew {V : Type} (k : Str) (v : V) (m : StdMap V)
    (h : m.find k = none) (k1 : Str) :
    (StdMap.insertNew k v m).find k1 = if k1 = k then some v else m.find k1 := by
  induction m with
  | nil =>
    unfold StdMap.insertNew
    rw [StdMap.find_cons]
  | cons e rest ih =>
    obtain ⟨k2, v2⟩ := e
    rw [StdMap.find_cons] at h
    have hk2 : k ≠ k2 := by
      intro heq
      rw [if_pos heq] at h
      exact absurd h (by simp)
    rw [if_neg hk2] at h
    unfold StdMap.insertNew
    by_cases hlt : strLt k k2 = true
    · rw [if_pos hlt, StdMap.find_cons]
    · rw [if_neg hlt, StdMap.find_cons, StdMap.find_cons, ih h]
      by_cases hk12 : k1 = k2
      · have : k1 ≠ k := fun h1 => hk2 (h1.symm.trans hk12)
        rw [if_pos hk12, if_neg this, if_pos hk12]
      · rw [if_neg hk12, if_neg hk12]

theorem StdMap.find_update {V : Type} (k : Str) (f : V → V) (m : StdMap V) (k1 : Str) :
    (StdMap.update k f m).find k1 = if k1 = k then (m.find k).map f else m.find k1 := by
  induction m with
  | nil =>
    unfold StdMap.update
    rw [StdMap.find_nil, StdMap.find_nil]
    simp
  | cons e rest ih =>
    obtain ⟨k2, v2⟩ := e
    unfold StdMap.update
    by_cases hk2 : k2 = k
    · rw [if_pos hk2, StdMap.find_cons, StdMap.find_cons, StdMap.find_cons, if_pos hk2.symm]
      by_cases hk : k1 = k
      · rw [if_pos hk, if_pos (hk.trans hk2.symm)]
        rfl
      · have : k1 ≠ k2 := fun h1 => hk (h1.trans hk2)
        rw [if_neg hk, if_neg this, if_neg this]
    · rw [if_neg hk2, StdMap.find_cons, StdMap.find_cons, StdMap.find_cons, ih,
        if_neg (Ne.symm hk2)]
      by_cases hk12 : k1 = k2
      · have : k1 ≠ k := fun h1 => hk2 (hk12.symm.trans h1)
        rw [if_pos hk12, if_neg this, if_pos hk12]
      · rw [if_neg hk12, if_neg hk12]

theorem StdMap.find_subscript {V : Type} (m : StdMap V) (k : Str) (dflt : V) (k1 : Str) :
    (m.subscript k dflt).find k1 =
      if k1 = k then some ((m.find k).getD dflt) else m.find k1 := by
  unfold StdMap.subscript
  cases h : m.find k with
  | some v =>
    by_cases hk : k1 = k
    · simp [hk, h]
    · simp [hk]
  | none =>
    simp only [Option.getD_none]
    exact StdMap.find_insertNew k dflt m h k1

/-! ## `TemplateValues` as a mapping -/

/-- C13: `TemplateValues` is a mapping from field name to string: after the
assignment `tv[k] = v`, a read of `tv[k]` yields `v` (and leaves the record as
it is) and `hasValue(k)` is true, while for every other key the result of
`hasValue` and the stored value are as before, and `getName()` is as before. -/
theorem TemplateValues_assign (tv : TemplateValues) (k v : Str) :
    ((tv.assign k v).subscript k).2 = v ∧
    ((tv.assign k v).subscript k).1 = tv.assign k v ∧
    (tv.assign k v).hasValue k = true ∧
    (∀ k1 : Str, k1 ≠ k →
      (tv.assign k v).hasValue k1 = tv.hasValue k1 ∧
      (tv.assign k v).m_values.find k1 = tv.m_values.find k1) ∧
    (tv.assign k v).getName = tv.getName := by
  have hfind : ∀ k1 : Str, (tv.assign k v).m_values.find k1 =
      if k1 = k then some v else tv.m_values.find k1 := by
    intro k1
    unfold TemplateValues.assign
    simp only
    rw [StdMap.find_update]
    by_cases hk : k1 = k
    · rw [if_pos hk, if_pos hk, StdMap.find_subscript, if_pos rfl]
      rfl
    · rw [if_neg hk, if_neg hk, StdMap.find_subscript, if_neg hk]
  have hk := hfind k
  rw [if_pos rfl] at hk
  have hsub : (tv.assign k v).m_values.subscript k [] = (tv.assign k v).m_values := by
    unfold StdMap.subscript
    rw [hk]
  refine ⟨?_, ?_, ?_, ?_, rfl⟩
  · unfold TemplateValues.subscript
    simp only
    rw [hsub, hk]
    rfl
  · unfold TemplateValues.subscript
    simp only
    rw [hsub]
  · unfold TemplateValues.hasValue
    rw [hk]
    rfl
  · intro k1 hne
    have h1 := hfind k1
    rw [if_neg hne] at h1
    refine ⟨?_, h1⟩
    unfold TemplateValues.hasValue
    rw [h1]

/-- The assignment of C13 on a record with one field. -/
theorem TemplateValues_assign_witness :
    "%%NAME%%".toList ≠ "%%TIME%%".toList ∧
    (((TemplateValues.ofName "msg".toList).assign "%%NAME%%".toList "Me".toList).assign
        "%%TIME%%".toList "12:00".toList).hasValue "%%NAME%%".toList =
      ((TemplateValues.ofName "msg".toList).assign "%%NAME%%".toList "Me".toList).hasValue
        "%%NAME%%".toList ∧
    (((TemplateValues.ofName "msg".toList).assign "%%NAME%%".toList "Me".toList).assign
        "%%TIME%%".toList "12:00".toList).m_values.find "%%NAME%%".toList =
      ((TemplateValues.ofName "msg".toList).assign "%%NAME%%".toList
        "Me".toList).m_values.find "%%NAME%%".toList :=
  ⟨by decide,
    (TemplateValues_assign
      ((TemplateValues.ofName "msg".toList).assign "%%NAME%%".toList "Me".toList)
      "%%TIME%%".toList "12:00".toList).2.2.2.1 "%%NAME%%".toList (by decide)⟩

/-! ## The export selection -/

theorem strCompare_gt_swap (a : Str) : ∀ b : Str, strCompare a b = .gt → strCompare b a = .lt := by
  induction a with
  | nil => intro b h; cases b <;> simp [strCompare] at h
  | cons x a ih =>
    intro b h
    cases b with
    | nil => simp [strCompare]
    | cons y b =>
      rcases lt_trichotomy x y with hxy | rfl | hyx
      · rw [strCompare_cons_lt hxy] at h
        exact absurd h (by simp)
      · rw [strCompare_cons_self] at h ⊢
        exact ih b h
      · exact strCompare_cons_lt hyx b a

theorem eq_of_not_strLt (a b : Str) (h1 : ¬ strLt a b = true) (h2 : ¬ strLt b a = true) :
    a = b := by
  rw [strLt_eq_true_iff] at h1 h2
  cases h : strCompare a b with
  | lt => exact absurd h h1
  | eq => exact (strCompare_eq_iff a b).mp h
  | gt => exact absurd (strCompare_gt_swap a b h) h2

theorem StrSet.mem_insert (s y : Str) (l : StrSet) :
    y ∈ StrSet.insert s l ↔ y = s ∨ y ∈ l := by
  induction l with
  | nil => simp [StrSet.insert]
  | cons x xs ih =>
    unfold StrSet.insert
    by_cases h1 : strLt s x = true
    · rw [if_pos h1]
      simp
    · rw [if_neg h1]
      by_cases h2 : strLt x s = true
      · rw [if_pos h2, List.mem_cons, ih, List.mem_cons]
        tauto
      · rw [if_neg h2]
        have hsx : s = x := eq_of_not_strLt s x h1 h2
        subst hsx
        simp

/-- One round of the loop of `collectSelection` adds the pair that it was given
to the pairs in the map. -/
theorem collect_step (acc : StdMap StrSet) (u0 s0 u s : Str) :
    (∃ set, (StdMap.update u0 (StrSet.insert s0) (acc.subscript u0 [])).find u = some set ∧
        s ∈ set) ↔
      (∃ set, acc.find u = some set ∧ s ∈ set) ∨ (u = u0 ∧ s = s0) := by
  rw [StdMap.find_update]
  by_cases hu : u = u0
  · subst hu
    rw [if_pos rfl, StdMap.find_subscript, if_pos rfl]
    cases hf : acc.find u with
    | none =>
      simp only [Option.getD_none, Option.map_some', Option.some.injEq, exists_eq_left']
      rw [StrSet.mem_insert]
      simp
    | some set0 =>
      simp only [Option.getD_some, Option.map_some', Option.some.injEq, exists_eq_left']
      rw [StrSet.mem_insert]
      tauto
  · rw [if_neg hu, StdMap.find_subscript, if_neg hu]
    simp [hu]

theorem collectSelection_contains (items : List ListItem) :
    ∀ (acc : StdMap StrSet) (u s : Str),
      (∃ set, (CView.collectSelection items acc).find u = some set ∧ s ∈ set) ↔
        (∃ set, acc.find u = some set ∧ s ∈ set) ∨
        ∃ item ∈ items, item.checked = true ∧
          ∃ session, item.data = some session ∧ session.owner.usrName = u ∧
            session.usrName = s := by
  induction items with
  | nil => intro acc u s; simp [CView.collectSelection]
  | cons item items ih =>
    intro acc u s
    obtain ⟨checked, data⟩ := item
    unfold CView.collectSelection
    cases checked with
    | false =>
      simp only [Bool.not_false, if_true]
      rw [ih]
      simp
    | true =>
      simp only [Bool.not_true, Bool.false_eq_true, if_false]
      cases data with
      | none =>
        simp only
        rw [ih]
        simp
      | some session =>
        simp only
        rw [ih]
        have hstep := collect_step acc session.owner.usrName session.usrName u s
        unfold StdMap.subscript at hstep
        have htail : ((∃ set, acc.find u = some set ∧ s ∈ set) ∨
              (u = session.owner.usrName ∧ s = session.usrName)) ∨
            (∃ item ∈ items, item.checked = true ∧
              ∃ session, item.data = some session ∧ session.owner.usrName = u ∧
                session.usrName = s) ↔
            (∃ set, acc.find u = some set ∧ s ∈ set) ∨
              ∃ item ∈ (⟨true, some session⟩ : ListItem) :: items, item.checked = true ∧
                ∃ session, item.data = some session ∧ session.owner.usrName = u ∧
                  session.usrName = s := by
          simp only [List.mem_cons, exists_eq_or_imp, true_and, Option.some.injEq,
            exists_eq_left']
          constructor
          · rintro ((h | ⟨h1, h2⟩) | h)
            · exact Or.inl h
            · exact Or.inr (Or.inl ⟨h1.symm, h2.symm⟩)
            · exact Or.inr (Or.inr h)
          · rintro (h | ⟨h1, h2⟩ | h)
            · exact Or.inl (Or.inl h)
            · exact Or.inl (Or.inr ⟨h1.symm, h2.symm⟩)
            · exact Or.inr h
        cases hf : acc.find session.owner.usrName with
        | none =>
          rw [hf] at hstep
          dsimp only at hstep ⊢
          rw [hstep]
          exact htail
        | some set0 =>
          rw [hf] at hstep
          dsimp only at hstep ⊢
          rw [hstep]
          exact htail

theorem OnBnClickedExport_exporter (env : Env) (v v1 : CView) (e : Exporter)
    (hidle : v.m_exporter = none) (hrun : v.OnBnClickedExport env = some v1)
    (hexp : v1.m_exporter = some e) :
    e.usersAndSessions = CView.collectSelection v.sessionItems [] := by
  unfold CView.OnBnClickedExport at hrun
  rw [hidle] at hrun
  simp only [Option.isSome_none, Bool.false_eq_true, if_false] at hrun
  split at hrun
  · simp only [Option.some.injEq] at hrun
    subst hrun
    simp [CView.MsgBox, hidle] at hexp
  · split at hrun
    · exact absurd hrun (by simp)
    · split at hrun
      · simp only [Option.some.injEq] at hrun
        subst hrun
        simp [CView.MsgBox, hidle] at hexp
      · split at hrun
        · simp only [Option.some.injEq] at hrun
          subst hrun
          simp [CView.MsgBox, hidle] at hexp
        · split at hrun
          · simp only [Option.some.injEq] at hrun
            subst hrun
            rw [hidle] at hexp
            exact absurd hexp (by simp)
          · split at hrun
            · simp only [Option.some.injEq] at hrun
              subst hrun
              simp only [CView.EnableInteractiveCtrls, Option.some.injEq] at hexp
              subst hexp
              rfl
            · simp only [Option.some.injEq] at hrun
              subst hrun
              simp only [Option.some.injEq] at hexp
              subst hexp
              rfl

/-- C18: the map that `OnBnClickedExport` passes to `filterUsersAndSessions` of
the exporter that it creates is the checked sessions grouped by owner: it
holds the session name `s` under the user name `u` exactly when some checked
item of the list view with non-null item data has the owner `u` and the session
user name `s`. -/
theorem export_selection_is_checked_sessions (env : Env) (v v1 : CView) (e : Exporter)
    (hidle : v.m_exporter = none) (hrun : v.OnBnClickedExport env = some v1)
    (hexp : v1.m_exporter = some e) (u s : Str) :
    (∃ set, e.usersAndSessions.find u = some set ∧ s ∈ set) ↔
      ∃ item ∈ v.sessionItems, item.checked = true ∧
        ∃ session, item.data = some session ∧ session.owner.usrName = u ∧
          session.usrName = s := by
  rw [OnBnClickedExport_exporter env v v1 e hidle hrun hexp, collectSelection_contains]
  simp [StdMap.find]

/-- The selection of C18 for the sample list view: the checked session is in
the map, the unchecked one is not. -/
theorem export_selection_is_checked_sessions_witness :
    ∃ v1 e, samplePlainView.m_exporter = none ∧
      samplePlainView.OnBnClickedExport sampleEnv = some v1 ∧ v1.m_exporter = some e ∧
      e.usersAndSessions = [("wxid_me".toList, ["wxid_peer".toList])] ∧
      ((∃ set, e.usersAndSessions.find "wxid_me".toList = some set ∧
          "room@chatroom".toList ∈ set) ↔
        ∃ item ∈ samplePlainView.sessionItems, item.checked = true ∧
          ∃ session, item.data = some session ∧ session.owner.usrName = "wxid_me".toList ∧
            session.usrName = "room@chatroom".toList) :=
  ⟨_, _, rfl, rfl, rfl, by decide,
    export_selection_is_checked_sessions sampleEnv samplePlainView _ _ rfl rfl rfl
      "wxid_me".toList "room@chatroom".toList⟩

/-! ## The order of the parsed messages -/

theorem rowLe_iff (a b : MsgRecord) :
    rowLe a b = true ↔
      a.createTime < b.createTime ∨ (a.createTime = b.createTime ∧ a.msgId ≤ b.msgId) := by
  simp [rowLe]

theorem rowLe_total (a b : MsgRecord) : rowLe a b = true ∨ rowLe b a = true := by
  rw [rowLe_iff, rowLe_iff]
  omega

theorem rowLe_trans (a b c : MsgRecord) (hab : rowLe a b = true) (hbc : rowLe b c = true) :
    rowLe a c = true := by
  rw [rowLe_iff] at hab hbc ⊢
  omega

theorem emitToSink_sublist (handler : MsgRecord → Bool) (l : List MsgRecord) :
    (emitToSink handler l).Sublist l := by
  induction l with
  | nil => exact List.Sublist.slnil
  | cons r rs ih =>
    unfold emitToSink
    by_cases h : handler r = true
    · rw [if_pos h]
      exact ih.cons₂ r
    · rw [if_neg h]
      exact (List.nil_sublist rs).cons₂ r

theorem emitToSink_of_continue (handler : MsgRecord → Bool) (h : ∀ r, handler r = true)
    (l : List MsgRecord) : emitToSink handler l = l := by
  induction l with
  | nil => rfl
  | cons r rs ih =>
    unfold emitToSink
    rw [if_pos (h r), ih]

theorem sorted_ascending (rows : List MsgRecord) :
    (rows.insertionSort (fun a b => rowLe a b = true)).Pairwise
      (fun a b => rowLe a b = true) := by
  haveI : IsTotal MsgRecord (fun a b => rowLe a b = true) := ⟨rowLe_total⟩
  haveI : IsTrans MsgRecord (fun a b => rowLe a b = true) := ⟨rowLe_trans⟩
  exact List.sorted_insertionSort _ rows

theorem sorted_descending (rows : List MsgRecord) :
    (rows.insertionSort (fun a b => rowLe b a = true)).Pairwise
      (fun a b => rowLe b a = true) := by
  haveI : IsTotal MsgRecord (fun a b => rowLe b a = true) := ⟨fun a b => rowLe_total b a⟩
  haveI : IsTrans MsgRecord (fun a b => rowLe b a = true) :=
    ⟨fun a b c hab hbc => rowLe_trans c b a hbc hab⟩
  exact List.sorted_insertionSort _ rows

/-- C12: `SessionParser::parse` after `setOrder(false)` hands the sink records
whose timestamps are non-increasing, and after `setOrder(true)` non-decreasing,
the row identifier breaking ties between equal timestamps in the same
direction; with a sink that never stops, the records are the rows of the
session, each once. -/
theorem parse_order (p : SessionParser) (rows : List MsgRecord) (handler : MsgRecord → Bool) :
    ((p.setOrder false).parse rows handler).1.Pairwise
      (fun a b => b.createTime ≤ a.createTime ∧
        (a.createTime = b.createTime → b.msgId ≤ a.msgId)) ∧
    ((p.setOrder true).parse rows handler).1.Pairwise
      (fun a b => a.createTime ≤ b.createTime ∧
        (a.createTime = b.createTime → a.msgId ≤ b.msgId)) ∧
    ((∀ r, handler r = true) →
      ((p.setOrder false).parse rows handler).1.Perm rows ∧
      ((p.setOrder true).parse rows handler).1.Perm rows) := by
  have hdesc : (p.setOrder false).m_options.testBit 16 = true := by
    rw [testBit_setOrder]
    rfl
  have hasc : (p.setOrder true).m_options.testBit 16 = false := by
    rw [testBit_setOrder]
    rfl
  refine ⟨?_, ?_, ?_⟩
  · unfold SessionParser.parse
    simp only [hdesc, if_true]
    refine ((sorted_descending rows).sublist (emitToSink_sublist handler _)).imp ?_
    intro a b hab
    rw [rowLe_iff] at hab
    omega
  · unfold SessionParser.parse
    simp only [hasc, Bool.false_eq_true, if_false]
    refine ((sorted_ascending rows).sublist (emitToSink_sublist handler _)).imp ?_
    intro a b hab
    rw [rowLe_iff] at hab
    omega
  · intro hcont
    unfold SessionParser.parse
    simp only [hdesc, hasc, if_true, Bool.false_eq_true, if_false]
    rw [emitToSink_of_continue handler hcont, emitToSink_of_continue handler hcont]
    exact ⟨List.perm_insertionSort _ rows, List.perm_insertionSort _ rows⟩

/-- The order of C12 on three rows, two of them with the same timestamp. -/
theorem parse_order_witness :
    (∀ r : MsgRecord, (fun _ => true) r = true) ∧
    ((⟨0⟩ : SessionParser).setOrder false).parse
        [⟨10, [], 0, 1, 1⟩, ⟨20, [], 0, 1, 2⟩, ⟨10, [], 0, 1, 3⟩] (fun _ => true) =
      ([⟨20, [], 0, 1, 2⟩, ⟨10, [], 0, 1, 3⟩, ⟨10, [], 0, 1, 1⟩], 3) ∧
    ((((⟨0⟩ : SessionParser).setOrder false).parse
        [⟨10, [], 0, 1, 1⟩, ⟨20, [], 0, 1, 2⟩, ⟨10, [], 0, 1, 3⟩] (fun _ => true)).1.Perm
        [⟨10, [], 0, 1, 1⟩, ⟨20, [], 0, 1, 2⟩, ⟨10, [], 0, 1, 3⟩] ∧
      (((⟨0⟩ : SessionParser).setOrder true).parse
        [⟨10, [], 0, 1, 1⟩, ⟨20, [], 0, 1, 2⟩, ⟨10, [], 0, 1, 3⟩] (fun _ => true)).1.Perm
        [⟨10, [], 0, 1, 1⟩, ⟨20, [], 0, 1, 2⟩, ⟨10, [], 0, 1, 3⟩]) :=
  ⟨fun _ => rfl, by decide,
    (parse_order ⟨0⟩ [⟨10, [], 0, 1, 1⟩, ⟨20, [], 0, 1, 2⟩, ⟨10, [], 0, 1, 3⟩]
      (fun _ => true)).2.2 (fun _ => rfl)⟩

/-! ## The read through `operator[]` -/

/-- C21: a read of a field through `operator[]` changes the record: for a key
`k` with `hasValue(k)` false, `tv[k]` yields the empty string and inserts `k`,
so that `hasValue(k)` is true afterwards, the other keys and `getName()` being
as before; `clear()` then makes `hasValue` false for every key and leaves
`getName()` as it is. -/
theorem TemplateValues_read_inserts (tv : TemplateValues) (k : Str)
    (h : tv.hasValue k = false) :
    (tv.subscript k).2 = [] ∧
    (tv.subscript k).1.hasValue k = true ∧
    (tv.subscript k).1 ≠ tv ∧
    (∀ k1 : Str, k1 ≠ k → (tv.subscript k).1.m_values.find k1 = tv.m_values.find k1) ∧
    (tv.subscript k).1.getName = tv.getName ∧
    (∀ k1 : Str, (tv.subscript k).1.clear.hasValue k1 = false) ∧
    (tv.subscript k).1.clear.getName = tv.getName := by
  have hnone : tv.m_values.find k = none := by
    unfold TemplateValues.hasValue at h
    cases hf : tv.m_values.find k with
    | none => rfl
    | some v => rw [hf] at h; exact absurd h (by simp)
  have hfind : ∀ k1 : Str, (tv.subscript k).1.m_values.find k1 =
      if k1 = k then some [] else tv.m_values.find k1 := by
    intro k1
    unfold TemplateValues.subscript
    simp only
    rw [StdMap.find_subscript, hnone]
    rfl
  have hk := hfind k
  rw [if_pos rfl] at hk
  refine ⟨?_, ?_, ?_, ?_, rfl, ?_, rfl⟩
  · have h2 : (tv.subscript k).2 = ((tv.subscript k).1.m_values.find k).getD [] := rfl
    rw [h2, hk]
    rfl
  · unfold TemplateValues.hasValue
    rw [hk]
    rfl
  · intro heq
    rw [heq, hnone] at hk
    exact absurd hk (by simp)
  · intro k1 hne
    rw [hfind k1, if_neg hne]
  · intro k1
    rfl

/-- The read of C21 on a record with one field: the key `%%TIME%%` is absent
before the read and present after it. -/
theorem TemplateValues_read_inserts_witness :
    ((TemplateValues.ofName "msg".toList).assign "%%NAME%%".toList "Me".toList).hasValue
        "%%TIME%%".toList = false ∧
    ((((TemplateValues.ofName "msg".toList).assign "%%NAME%%".toList "Me".toList).subscript
        "%%TIME%%".toList).2 = [] ∧
      (((TemplateValues.ofName "msg".toList).assign "%%NAME%%".toList "Me".toList).subscript
        "%%TIME%%".toList).1.hasValue "%%TIME%%".toList = true) ∧
    (((TemplateValues.ofName "msg".toList).assign "%%NAME%%".toList "Me".toList).subscript
        "%%TIME%%".toList).1.m_values =
      [("%%NAME%%".toList, "Me".toList), ("%%TIME%%".toList, [])] :=
  have h := TemplateValues_read_inserts
    ((TemplateValues.ofName "msg".toList).assign "%%NAME%%".toList "Me".toList)
    "%%TIME%%".toList (by decide)
  ⟨by decide, ⟨h.1, h.2.1⟩, by decide⟩

end WechatParser
